import Mathlib

/-!
Verification of the tennis-odds pipeline (`src/odds_all.js`, `src/odds.js`,
and the history-scan script bundled with `src/odds.js`).

JavaScript numbers are modelled as exact rationals together with the
IEEE special values `NaN` and `±Infinity`; finite-double rounding is
idealised away (the negative zero is not distinguished from zero).
Strings are modelled by Lean `String`s.
-/

namespace TennisOdds

/-- A JavaScript number: `NaN`, `±Infinity`, or a finite value
(idealised as an exact rational). -/
inductive JSNum where
  | nan : JSNum
  | inf : JSNum
  | ninf : JSNum
  | fin : ℚ → JSNum
deriving DecidableEq, Repr

/-- JavaScript `+` on numbers. -/
def jsAdd : JSNum → JSNum → JSNum
  | .nan, _ => .nan
  | _, .nan => .nan
  | .inf, .ninf => .nan
  | .ninf, .inf => .nan
  | .inf, _ => .inf
  | _, .inf => .inf
  | .ninf, _ => .ninf
  | _, .ninf => .ninf
  | .fin a, .fin b => .fin (a + b)

/-- JavaScript `/` on numbers (negative zero is not modelled, so a
finite value divided by zero gives `+Infinity` for positive numerators). -/
def jsDiv : JSNum → JSNum → JSNum
  | .nan, _ => .nan
  | _, .nan => .nan
  | .inf, .inf => .nan
  | .inf, .ninf => .nan
  | .ninf, .inf => .nan
  | .ninf, .ninf => .nan
  | .inf, .fin b => if b < 0 then .ninf else .inf
  | .ninf, .fin b => if b < 0 then .inf else .ninf
  | .fin _, .inf => .fin 0
  | .fin _, .ninf => .fin 0
  | .fin a, .fin b =>
      if b = 0 then (if a = 0 then .nan else if a < 0 then .ninf else .inf)
      else .fin (a / b)

/-- JavaScript `Number.isFinite`. -/
def JSNum.isFinite : JSNum → Bool
  | .fin _ => true
  | _ => false

/-- `normalizeDecimalOddsToProbs` (identical in `odds.js` and `odds_all.js`):
implied probabilities `1/o` are rescaled by their sum. -/
def normalizeDecimalOddsToProbs (decimalOdds : List JSNum) : List JSNum :=
  let implied := decimalOdds.map (fun o => jsDiv (.fin 1) o)
  let s := implied.foldl jsAdd (.fin 0)
  implied.map (fun p => jsDiv p s)

/-! ## Raw market payloads (upstream JSON shape) -/

/-- One priced outcome of a market. -/
structure Outcome where
  name : String
  price : JSNum
deriving DecidableEq, Repr

/-- One market of a bookmaker (`key` is "h2h" for head-to-head). -/
structure Market where
  key : String
  outcomes : List Outcome
deriving DecidableEq, Repr

/-- One bookmaker entry of an event; absent `markets` is modelled as `[]`
(the code reads `b.markets || []`). -/
structure Bookmaker where
  title : Option String
  key : Option String
  markets : List Market
deriving DecidableEq, Repr

/-- One raw upstream event; absent `bookmakers` is modelled as `[]`. -/
structure RawMarketEvent where
  id : String
  commence_time : String
  bookmakers : List Bookmaker
deriving DecidableEq, Repr

/-- `(b.markets || []).some(m => m.key === 'h2h')`. -/
def hasH2hMarket (b : Bookmaker) : Bool :=
  b.markets.any (fun m => m.key == "h2h")

/-- `(ev.bookmakers || []).find(b => ...)`: first bookmaker offering an
h2h market. -/
def findH2hBookmaker (ev : RawMarketEvent) : Option Bookmaker :=
  ev.bookmakers.find? hasH2hMarket

/-- `bk?.markets?.find(m => m.key === 'h2h')`. -/
def findH2h (b : Bookmaker) : Option Market :=
  b.markets.find? (fun m => m.key == "h2h")

/-- JavaScript `a || b` on optional strings (the empty string is falsy). -/
def jsOrStr : Option String → Option String → Option String
  | some s, b => if s = "" then b else some s
  | none, b => b

/-! ## Number formatting (`toFixed(4)`) -/

/-- The decimal digit character of `d` (meaningful for `d < 10`). -/
def digitChar10 (d : Nat) : Char := Char.ofNat (48 + d)

/-- The low `w` decimal digits of `n`, most significant first. -/
def padDigits : Nat → Nat → String
  | 0, _ => ""
  | w + 1, n => String.singleton (digitChar10 (n / 10 ^ w % 10)) ++ padDigits w n

/-- `q.toFixed(4)` for a nonnegative finite value: round half away from
zero at the fourth decimal. -/
def fixed4String (q : ℚ) : String :=
  let n : Nat := (⌊q * 10000 + 1 / 2⌋).toNat
  toString (n / 10000) ++ "." ++ padDigits 4 (n % 10000)

/-- JavaScript `x.toFixed(4)` (exponential form for huge values is out of
range for the probabilities formatted here and is not modelled). -/
def toFixed4 : JSNum → String
  | .nan => "NaN"
  | .inf => "Infinity"
  | .ninf => "-Infinity"
  | .fin q => if q < 0 then "-" ++ fixed4String (-q) else fixed4String q

/-! ## Row construction, `odds_all.js` (bulk snapshot) -/

/-- The flat CSV/JSON row of `odds_all.js` (lines 51–63). -/
structure FlatRow where
  event_id : String
  start : String
  player1 : String
  player2 : String
  odds1 : JSNum
  odds2 : JSNum
  prob1 : String
  prob2 : String
  bookmaker : String
  sport_key : String
  region : String
deriving DecidableEq, Repr

/-- `Number.isFinite(probs[i]) ? probs[i].toFixed(4) : ''`. -/
def guardedProbField (probs : List JSNum) (i : Nat) : String :=
  match probs.get? i with
  | some p => if p.isFinite then toFixed4 p else ""
  | none => ""

/-- The per-event body of the `for` loop of `fetchOddsForKey` in
`odds_all.js` (lines 43–64): `continue` is `none`.  The defaults supplied
to `odds1`/`odds2` are unreachable because the guard ensures at least two
outcomes. -/
def oddsAllRowOfEvent (region sportKey : String) (ev : RawMarketEvent) : Option FlatRow :=
  match findH2hBookmaker ev with
  | none => none
  | some bk =>
    match findH2h bk with
    | none => none
    | some h2h =>
      let names := h2h.outcomes.map (fun oc => oc.name)
      let odds := h2h.outcomes.map (fun oc => oc.price)
      if odds.length < 2 then none
      else
        let probs := normalizeDecimalOddsToProbs odds
        some
          { event_id := ev.id
            start := ev.commence_time
            player1 := (names.get? 0).getD ""
            player2 := (names.get? 1).getD ""
            odds1 := (odds.get? 0).getD .nan
            odds2 := (odds.get? 1).getD .nan
            prob1 := guardedProbField probs 0
            prob2 := guardedProbField probs 1
            bookmaker := (jsOrStr bk.title bk.key).getD ""
            sport_key := sportKey
            region := region }

/-! ## Row construction, `odds.js` (single-competition CLI) -/

/-- One mapped event of `odds.js` (lines 68–75). -/
structure CliEvent where
  id : String
  start : String
  players : List String
  odds_decimal : List JSNum
  probs_normalized : List JSNum
  bookmaker : Option String
deriving DecidableEq, Repr

/-- The per-event mapper of `fetchOddsForKey` in `odds.js` (lines 60–76);
`raw.map(...).filter(Boolean)` is `filterMap` of this. -/
def cliMapEvent (ev : RawMarketEvent) : Option CliEvent :=
  match findH2hBookmaker ev with
  | none => none
  | some bk =>
    match findH2h bk with
    | none => none
    | some h2h =>
      let names := h2h.outcomes.map (fun oc => oc.name)
      let odds := h2h.outcomes.map (fun oc => oc.price)
      if odds.length < 2 then none
      else
        some
          { id := ev.id
            start := ev.commence_time
            players := names
            odds_decimal := odds
            probs_normalized := normalizeDecimalOddsToProbs odds
            bookmaker := jsOrStr bk.title bk.key }

/-- The CSV row of `odds.js` (lines 92–103); `odds1`/`odds2` keep the
JavaScript `x ?? ''` shape (`none` renders as the empty field). -/
structure CliCsvRow where
  id : String
  start : String
  player1 : String
  player2 : String
  odds1 : Option JSNum
  odds2 : Option JSNum
  prob1 : String
  prob2 : String
  bookmaker : String
  region : String
deriving DecidableEq, Repr

/-- `e.probs_normalized[i]?.toFixed(4) ?? ''`: a present value — finite or
not — is formatted with `toFixed`. -/
def cliProbField (probs : List JSNum) (i : Nat) : String :=
  match probs.get? i with
  | some p => toFixed4 p
  | none => ""

/-- Builds one CSV row of `odds.js` (lines 92–103). -/
def cliCsvRowOfEvent (region : String) (e : CliEvent) : CliCsvRow :=
  { id := e.id
    start := e.start
    player1 := (e.players.get? 0).getD ""
    player2 := (e.players.get? 1).getD ""
    odds1 := e.odds_decimal.get? 0
    odds2 := e.odds_decimal.get? 1
    prob1 := cliProbField e.probs_normalized 0
    prob2 := cliProbField e.probs_normalized 1
    bookmaker := e.bookmaker.getD ""
    region := region }

/-! ## Fetch outcomes and the three entry points' failure policies -/

/-- Outcome of one `fetch` call: a parsed success payload, a non-success
HTTP response (`!res.ok`) with its status, or a network-level transport
failure (the `fetch` promise rejects). -/
inductive FetchResult (α : Type) where
  | success : α → FetchResult α
  | httpError : Nat → FetchResult α
  | transportError : FetchResult α
deriving DecidableEq, Repr

/-- `fetchOddsForKey` of `odds_all.js` (lines 37–66): a non-success
response returns `[]`; a transport failure propagates (there is no
`try`/`catch` in this function). -/
def oddsAllFetch (region sportKey : String)
    (r : FetchResult (List RawMarketEvent)) : Except Unit (List FlatRow) :=
  match r with
  | .transportError => .error ()
  | .httpError _ => .ok []
  | .success raw => .ok (raw.filterMap (oddsAllRowOfEvent region sportKey))

/-- The accumulation loop of the `odds_all.js` main function
(lines 84–89) under its top-level `try`/`catch` (lines 101–104): the first
propagated error aborts the whole run. -/
def oddsAllRun (region : String)
    (fetches : List (String × FetchResult (List RawMarketEvent))) :
    Except Unit (List FlatRow) :=
  fetches.foldl
    (fun acc kf => do
      let all ← acc
      let rows ← oddsAllFetch region kf.1 kf.2
      pure (all ++ rows))
    (.ok [])

/-- `fetchOddsForKey` of `odds.js` (lines 53–76): strict mode — a
non-success response throws `Odds fetch failed: ...`, a transport failure
also propagates; the CLI wrapper turns either into a failed invocation. -/
def cliFetch (r : FetchResult (List RawMarketEvent)) :
    Except String (List CliEvent) :=
  match r with
  | .transportError => .error "fetch rejected"
  | .httpError status => .error ("Odds fetch failed: " ++ toString status)
  | .success raw => .ok (raw.filterMap cliMapEvent)

/-- A scan-payload body: the odds endpoint normally returns a JSON array,
but `countEvents` also tolerates a non-array body. -/
inductive ScanPayload where
  | arr : List RawMarketEvent → ScanPayload
  | nonArray : ScanPayload
deriving DecidableEq, Repr

/-- `countEvents` of the history-scan script (lines 171–180 of the
bundle): any thrown error — non-success response or transport failure —
is caught and becomes the `-1` sentinel. -/
def countEvents (r : FetchResult ScanPayload) : Int :=
  match r with
  | .success (.arr events) => (events.length : Int)
  | .success .nonArray => 0
  | .httpError _ => -1
  | .transportError => -1

/-- One persisted history row (`{ts, key, title, region, count}`). -/
structure ScanRow where
  ts : String
  key : String
  title : String
  region : String
  count : Int
deriving DecidableEq, Repr

/-- One (competition, region) iteration of the history scan. -/
structure ScanFetch where
  key : String
  title : String
  region : String
  result : FetchResult ScanPayload
deriving DecidableEq, Repr

/-- The row-accumulation loop of the history-scan main function
(lines 186–194 of the bundle). -/
def scanRun (ts : String) (pairs : List ScanFetch) : List ScanRow :=
  pairs.map (fun p =>
    { ts := ts, key := p.key, title := p.title, region := p.region
      count := countEvents p.result })

/-! ## CSV serialisation (`toCsv`, identical in both files) -/

/-- A generic record as `toCsv` sees it: named fields in insertion order;
`none` models a `null`/`undefined` value. -/
abbrev Record := List (String × Option String)

/-- `r[h]` on a record: `none` for an absent key or a null value. -/
def recordGet (r : Record) (h : String) : Option String :=
  match r.find? (fun p => p.1 == h) with
  | some p => p.2
  | none => none

/-- Doubles every double quote in a character list
(`s.replace(/"/g, '""')` at character level). -/
def dquoteChars (cs : List Char) : List Char :=
  cs.flatMap (fun c => if c = '"' then ['"', '"'] else [c])

/-- The `esc` closure of `toCsv`: null/undefined become the empty field;
a string matching `/[",\n]/` is wrapped in double quotes with each inner
double quote doubled (`s.replace(/"/g, '""')`). -/
def escCsv : Option String → String
  | none => ""
  | some s =>
      if s.data.any (fun c => c == '"' || c == ',' || c == '\n') then
        "\"" ++ String.mk (dquoteChars s.data) ++ "\""
      else s

/-- `toCsv` (lines 19–31 of `odds.js`, 68–77 of `odds_all.js`). -/
def toCsv (rows : List Record) : String :=
  match rows with
  | [] => ""
  | r0 :: _ =>
    let headers := r0.map (fun p => p.1)
    String.intercalate "\n"
      (String.intercalate "," headers ::
        rows.map (fun r => String.intercalate "," (headers.map (fun h => escCsv (recordGet r h)))))

/-- Per the spec's words: a field containing a comma, double quote, or
newline is wrapped in double quotes with internal double quotes doubled;
other fields (and null fields) are rendered as-is. -/
def specEscapeField : Option String → String
  | none => ""
  | some s =>
      if (',' ∈ s.data) ∨ ('"' ∈ s.data) ∨ ('\n' ∈ s.data) then
        "\"" ++ String.mk (s.data.flatMap (fun c => if c = '"' then ['"', '"'] else [c])) ++ "\""
      else s

/-- Per the spec's words: header row = keys of the first record in
insertion order; every row rendered with that same column set and order;
empty input yields the empty string with no header. -/
def specCsv (rows : List Record) : String :=
  match rows with
  | [] => ""
  | r0 :: _ =>
    let headers := r0.map (fun p => p.1)
    String.intercalate "\n"
      (String.intercalate "," headers ::
        rows.map (fun r =>
          String.intercalate "," (headers.map (fun h => specEscapeField (recordGet r h)))))

/-! ## The history-scan CSV log -/

/-- The fixed header of `scan_history.csv`. -/
def scanHeader : String := "timestamp,key,title,region,count\n"

/-- One hexadecimal digit (lowercase, as `JSON.stringify` emits). -/
def hexChar (n : Nat) : Char :=
  if n < 10 then digitChar10 n else Char.ofNat (87 + n)

/-- The `JSON.stringify` escape of one character inside a string
literal. -/
def jsonEscChar (c : Char) : String :=
  if c = '"' then "\\\"" else
  if c = '\\' then "\\\\" else
  if c = '\n' then "\\n" else
  if c = '\r' then "\\r" else
  if c = '\t' then "\\t" else
  if c = Char.ofNat 8 then "\\b" else
  if c = Char.ofNat 12 then "\\f" else
  if c.toNat < 32 then "\\u00" ++ String.mk [hexChar (c.toNat / 16), hexChar (c.toNat % 16)] else
  String.singleton c

/-- `JSON.stringify` of a string value. -/
def jsonStringifyStr (s : String) : String :=
  "\"" ++ String.join (s.data.map jsonEscChar) ++ "\""

/-- Reversed decimal digits of `n`, with enough fuel (`fuel ≥ n`
suffices since the argument shrinks by a factor of ten each step). -/
def digitsRevFuel : Nat → Nat → List Char
  | 0, _ => []
  | _ + 1, 0 => []
  | fuel + 1, n + 1 => digitChar10 ((n + 1) % 10) :: digitsRevFuel fuel ((n + 1) / 10)

/-- Reversed decimal digits of `n`. -/
def digitsRev (n : Nat) : List Char := digitsRevFuel n n

/-- Decimal rendering of a natural number, as a JS template string
renders an integer-valued number. -/
def natToString (n : Nat) : String :=
  if n = 0 then "0" else String.mk (digitsRev n).reverse

/-- Decimal rendering of an integer, as `${o.count}` renders it. -/
def intToString (i : Int) : String :=
  if i < 0 then "-" ++ natToString i.natAbs else natToString i.natAbs

/-- The `line` template of the history scan (line 197–198 of the bundle):
`ts,JSON.stringify(key),JSON.stringify(title),region,count` plus a
newline. -/
def scanLine (o : ScanRow) : String :=
  o.ts ++ "," ++ jsonStringifyStr o.key ++ "," ++ jsonStringifyStr o.title ++ ","
    ++ o.region ++ "," ++ intToString o.count ++ "\n"

/-- One invocation of the history logger against a file state (`none` =
the file does not exist): write the header first iff the file is new,
then append one line per row (lines 196–202 of the bundle). -/
def scanLogWrite (file : Option String) (rows : List ScanRow) : String :=
  let base := match file with | none => scanHeader | some c => c
  base ++ String.join (rows.map scanLine)

/-- File contents after a sequence of logger invocations starting from a
non-existent file. -/
def scanLogRuns (invs : List (List ScanRow)) : Option String :=
  invs.foldl (fun st rows => some (scanLogWrite st rows)) none

/-! ## Archive stamp (`odds_all.js` line 96) -/

/-- `ts.replace(/[-:]/g, '').slice(0, 15)`. -/
def stamp (ts : String) : String :=
  String.mk ((ts.data.filter (fun c => !(c == '-' || c == ':'))).take 15)

/-- A calendar timestamp as `Date.toISOString` renders it. -/
structure DateTime where
  year : Nat
  month : Nat
  day : Nat
  hour : Nat
  minute : Nat
  second : Nat
  ms : Nat
deriving DecidableEq, Repr

/-- Modelled from the spec: the JavaScript runtime's
`Date.prototype.toISOString` (external to the repository), producing
`YYYY-MM-DDTHH:mm:ss.sssZ`. -/
def isoString (t : DateTime) : String :=
  padDigits 4 t.year ++ "-" ++ padDigits 2 t.month ++ "-" ++ padDigits 2 t.day ++ "T"
    ++ padDigits 2 t.hour ++ ":" ++ padDigits 2 t.minute ++ ":" ++ padDigits 2 t.second
    ++ "." ++ padDigits 3 t.ms ++ "Z"

/-- Per the spec's words: a year-month-day-hour-minute stamp with no
separator characters. -/
def specYmdhm (t : DateTime) : String :=
  padDigits 4 t.year ++ padDigits 2 t.month ++ padDigits 2 t.day
    ++ padDigits 2 t.hour ++ padDigits 2 t.minute

/-- Component widths fit the fixed-width rendering of `isoString`. -/
def DateTime.fitsWidths (t : DateTime) : Prop :=
  t.year < 10000 ∧ t.month < 100 ∧ t.day < 100 ∧ t.hour < 100 ∧
    t.minute < 100 ∧ t.second < 100 ∧ t.ms < 1000

/-! ## A conformant RFC4180 CSV reader (the round-trip comparison object) -/

/-- Reader mode: inside an unquoted field, inside a quoted field, or just
past a quote inside a quoted field. -/
inductive CsvMode where
  | unquoted : CsvMode
  | quoted : CsvMode
  | afterQuote : CsvMode
deriving DecidableEq, Repr

/-- Reader state: finished rows, fields of the current row, characters of
the current field, and the mode. -/
structure CsvState where
  rows : List (List String)
  row : List String
  field : List Char
  mode : CsvMode
deriving DecidableEq, Repr

/-- Modelled from the spec: one step of a conformant RFC4180 CSV reader
(external to the repository).  A quote at the start of a field opens a
quoted field; inside a quoted field a doubled quote denotes one literal
quote; commas and newlines are field/record separators only outside
quoted fields.  Malformed inputs (never produced by `toCsv`) are read
leniently. -/
def csvStep (st : CsvState) (c : Char) : CsvState :=
  match st.mode with
  | .quoted =>
      if c = '"' then { st with mode := .afterQuote }
      else { st with field := st.field ++ [c] }
  | .afterQuote =>
      if c = '"' then { st with field := st.field ++ ['"'], mode := .quoted }
      else if c = ',' then
        { st with row := st.row ++ [String.mk st.field], field := [], mode := .unquoted }
      else if c = '\n' then
        { st with rows := st.rows ++ [st.row ++ [String.mk st.field]],
                  row := [], field := [], mode := .unquoted }
      else st
  | .unquoted =>
      if c = '"' then
        (if st.field = [] then { st with mode := .quoted }
         else { st with field := st.field ++ [c] })
      else if c = ',' then
        { st with row := st.row ++ [String.mk st.field], field := [] }
      else if c = '\n' then
        { st with rows := st.rows ++ [st.row ++ [String.mk st.field]],
                  row := [], field := [] }
      else { st with field := st.field ++ [c] }

/-- Modelled from the spec: a conformant RFC4180 CSV reader (external to
the repository), as a matrix of field strings.  The empty document has no
records. -/
def rfc4180Parse (s : String) : List (List String) :=
  if s = "" then []
  else
    let fin := s.data.foldl csvStep ⟨[], [], [], .unquoted⟩
    fin.rows ++ [fin.row ++ [String.mk fin.field]]

/-- Reconstructs records from a parsed CSV matrix: the first row gives
the keys, every later row one record. -/
def csvRecords (m : List (List String)) : List (List (String × String)) :=
  match m with
  | [] => []
  | hdr :: dataRows => dataRows.map (fun vs => hdr.zip vs)

/-- Characters of one rendered CSV row: the escaped fields joined by
commas. -/
def rowData : List (Option String) → List Char
  | [] => []
  | f :: fs => (escCsv f).data ++ (fs.map (fun v => ',' :: (escCsv v).data)).flatten

/-- Characters of a rendered CSV document: the rendered lines joined by
newlines. -/
def csvLinesData : List (List (Option String)) → List Char
  | [] => []
  | l :: ls => rowData l ++ (ls.map (fun l => '\n' :: rowData l)).flatten

/-- Finishing a reader run: flush the pending field and row. -/
def csvFinalize (st : CsvState) : List (List String) :=
  st.rows ++ [st.row ++ [String.mk st.field]]

/-- Splits a character list at newlines (the last segment is the part
after the final newline; a trailing newline yields a final empty
segment). -/
def splitNl : List Char → List (List Char)
  | [] => [[]]
  | c :: cs =>
      if c = '\n' then [] :: splitNl cs
      else
        match splitNl cs with
        | l :: ls => (c :: l) :: ls
        | [] => [[c]]

/-- Chronological order on timestamps truncated to seconds, as the
lexicographic order on components. -/
def DateTime.chronoLt (a b : DateTime) : Prop :=
  a.year < b.year ∨ (a.year = b.year ∧
    (a.month < b.month ∨ (a.month = b.month ∧
      (a.day < b.day ∨ (a.day = b.day ∧
        (a.hour < b.hour ∨ (a.hour = b.hour ∧
          (a.minute < b.minute ∨ (a.minute = b.minute ∧
            a.second < b.second)))))))))

/-! ## Step functions and sample data used by the verification -/

/-- Concrete data for the C2 witness: the first bookmaker has no h2h
market, the second does. -/
def bkNoH2h : Bookmaker :=
  { title := some "NoH2h", key := some "no", markets := [⟨"totals", []⟩] }

/-- Second bookmaker of the C2 witness: offers a two-outcome h2h
market. -/
def bkWithH2h : Bookmaker :=
  { title := some "WithH2h", key := some "yes",
    markets := [⟨"h2h", [⟨"A", .fin 2⟩, ⟨"B", .fin 2⟩]⟩] }

/-- Sample event for the C2 witness. -/
def evC2 : RawMarketEvent :=
  { id := "ev1", commence_time := "2026-01-01T00:00:00Z",
    bookmakers := [bkNoH2h, bkWithH2h] }

/-- An event with an empty bookmaker list, dropped by both extractors. -/
def evC2dropped : RawMarketEvent :=
  { id := "e1", commence_time := "t1", bookmakers := [] }

/-- A kept event used alongside `evC2dropped` in the C2 witness. -/
def evC2kept : RawMarketEvent :=
  { id := "e0", commence_time := "t0", bookmakers := [bkWithH2h] }

/-- The step function of the bulk accumulation loop. -/
def oddsAllStep (region : String)
    (acc : Except Unit (List FlatRow))
    (kf : String × FetchResult (List RawMarketEvent)) : Except Unit (List FlatRow) := do
  let all ← acc
  let rows ← oddsAllFetch region kf.1 kf.2
  pure (all ++ rows)

/-- Sample event for the C4 counterexample: the first listed price is
zero, so normalization produces `NaN` for the first outcome. -/
def evC4 : RawMarketEvent :=
  { id := "e", commence_time := "t",
    bookmakers := [⟨some "B", some "b", [⟨"h2h", [⟨"A", .fin 0⟩, ⟨"C", .fin 2⟩]⟩]⟩] }

/-- Sample three-outcome event for the C10 witness. -/
def evC10 : RawMarketEvent :=
  { id := "e3", commence_time := "t",
    bookmakers := [⟨some "B", some "b",
      [⟨"h2h", [⟨"A", .fin 2⟩, ⟨"B", .fin 4⟩, ⟨"C", .fin 4⟩]⟩]⟩] }

/-- Sample timestamp for the C8 counterexample. -/
def tC8 : DateTime := ⟨2026, 10, 11, 12, 34, 56, 789⟩

/-- The characters of one history line before its trailing newline. -/
def scanLineContent (o : ScanRow) : List Char :=
  o.ts.data ++ [','] ++ (jsonStringifyStr o.key).data ++ [','] ++ (jsonStringifyStr o.title).data
    ++ [','] ++ o.region.data ++ [','] ++ (intToString o.count).data

/-- Rows appended by the first invocation of the C7 witness. -/
def c7rows1 : List ScanRow := [⟨"t1", "k", "T", "eu", -1⟩]

/-- Rows appended by the second invocation of the C7 witness. -/
def c7rows2 : List ScanRow := [⟨"t2", "k", "T", "eu", 0⟩]

/-- Second record of the C6 witness, with a newline inside a value. -/
def c6r1 : Record := [("a", some "line\nbreak"), ("b", some "z")]

/-! ## Lemmas about the normalizer -/

theorem jsDiv_one_fin (q : ℚ) (hq : q ≠ 0) : jsDiv (.fin 1) (.fin q) = .fin (1 / q) := by
  simp [jsDiv, hq]

theorem jsDiv_fin_fin (a b : ℚ) (hb : b ≠ 0) : jsDiv (.fin a) (.fin b) = .fin (a / b) := by
  simp [jsDiv, hb]

theorem foldl_jsAdd_fin (l : List ℚ) (a : ℚ) :
    (l.map JSNum.fin).foldl jsAdd (.fin a) = .fin (a + l.sum) := by
  induction l generalizing a with
  | nil => simp
  | cons x xs ih => simp [jsAdd, ih, add_assoc]

/-- On a list of nonzero finite odds whose implied-probability sum is
nonzero, the normalizer computes exactly the rescaled implied
probabilities. -/
theorem normalize_fin (qs : List ℚ) (h0 : ∀ q ∈ qs, q ≠ 0)
    (hS : (qs.map (fun r => 1 / r)).sum ≠ 0) :
    normalizeDecimalOddsToProbs (qs.map JSNum.fin)
      = qs.map (fun q => JSNum.fin (1 / q / (qs.map (fun r => 1 / r)).sum)) := by
  have himp : (qs.map JSNum.fin).map (fun o => jsDiv (.fin 1) o)
      = (qs.map (fun r => 1 / r)).map JSNum.fin := by
    rw [List.map_map, List.map_map]
    exact List.map_congr_left (fun q hq => jsDiv_one_fin q (h0 q hq))
  simp only [normalizeDecimalOddsToProbs]
  rw [himp, foldl_jsAdd_fin, zero_add, List.map_map, List.map_map]
  exact List.map_congr_left (fun q _ => jsDiv_fin_fin _ _ hS)

theorem sum_implied_pos (qs : List ℚ) (hne : qs ≠ []) (hpos : ∀ q ∈ qs, 0 < q) :
    0 < (qs.map (fun r => 1 / r)).sum := by
  apply List.sum_pos
  · intro a ha
    obtain ⟨q, hq, rfl⟩ := List.mem_map.mp ha
    exact one_div_pos.mpr (hpos q hq)
  · simpa using hne

/-- C1: for every nonempty array of finite positive decimal odds, the
normalizer returns exactly the array of `(1/o_i) / Σ_j (1/o_j)`; these
probabilities sum to 1 (hence within `1e-9` of 1) and are ordered
strictly inversely to the odds. -/
theorem normalize_probs_spec (qs : List ℚ) (hne : qs ≠ []) (hpos : ∀ q ∈ qs, 0 < q) :
    normalizeDecimalOddsToProbs (qs.map JSNum.fin)
      = qs.map (fun q => JSNum.fin (1 / q / (qs.map (fun r => 1 / r)).sum))
    ∧ |(qs.map (fun q => 1 / q / (qs.map (fun r => 1 / r)).sum)).sum - 1| ≤ 1 / 10 ^ 9
    ∧ (∀ i j, (hi : i < qs.length) → (hj : j < qs.length) →
        qs.get ⟨i, hi⟩ < qs.get ⟨j, hj⟩ →
        1 / qs.get ⟨j, hj⟩ / (qs.map (fun r => 1 / r)).sum
          < 1 / qs.get ⟨i, hi⟩ / (qs.map (fun r => 1 / r)).sum) := by
  have hS : 0 < (qs.map (fun r => 1 / r)).sum := sum_implied_pos qs hne hpos
  refine ⟨normalize_fin qs (fun q hq => ne_of_gt (hpos q hq)) (ne_of_gt hS), ?_, ?_⟩
  · have hsum : (qs.map (fun q => 1 / q / (qs.map (fun r => 1 / r)).sum)).sum = 1 := by
      have : (qs.map (fun q => 1 / q / (qs.map (fun r => 1 / r)).sum)).sum
          = (qs.map (fun q => 1 / q)).sum / (qs.map (fun r => 1 / r)).sum := by
        simp only [div_eq_mul_inv]
        rw [← List.sum_map_mul_right]
      rw [this, div_self (ne_of_gt hS)]
    rw [hsum]
    norm_num
  · intro i j hi hj hij
    have hqi := hpos _ (qs.get_mem i hi)
    have hqj := hpos _ (qs.get_mem j hj)
    have h1 : 1 / qs.get ⟨j, hj⟩ < 1 / qs.get ⟨i, hi⟩ :=
      one_div_lt_one_div_of_lt hqi hij
    exact div_lt_div_of_pos_right h1 hS

/-- Witness for C1 at the spec's own example odds `[1.80, 2.20]`. -/
theorem normalize_probs_spec_witness :
    normalizeDecimalOddsToProbs ([9/5, 11/5].map JSNum.fin)
      = [(9 : ℚ)/5, 11/5].map
          (fun q => JSNum.fin (1 / q / (([(9 : ℚ)/5, 11/5]).map (fun r => 1 / r)).sum)) :=
  (normalize_probs_spec [9/5, 11/5] (by decide)
    (by intro q hq; simp at hq; rcases hq with h | h <;> rw [h] <;> norm_num)).1

/-! ## Lemmas about market extraction -/

theorem find?_append_first {α : Type} (p : α → Bool) (pre : List α) (x : α) (post : List α)
    (hpre : ∀ b ∈ pre, p b = false) (hx : p x = true) :
    (pre ++ x :: post).find? p = some x := by
  induction pre with
  | nil => simp [List.find?_cons_of_pos, hx]
  | cons b bs ih =>
      rw [List.cons_append, List.find?_cons_of_neg]
      · exact ih (fun b' hb' => hpre b' (List.mem_cons_of_mem b hb'))
      · simp [hpre b (List.mem_cons_self b bs)]

/-- A bookmaker that passes the `hasH2hMarket` test has a first h2h
market. -/
theorem findH2h_isSome_of_hasH2h (bk : Bookmaker) (h : hasH2hMarket bk = true) :
    ∃ m, findH2h bk = some m := by
  unfold hasH2hMarket at h
  obtain ⟨m, hm, hkey⟩ := List.any_eq_true.mp h
  unfold findH2h
  have : (bk.markets.find? (fun m => m.key == "h2h")).isSome :=
    List.find?_isSome.mpr ⟨m, hm, hkey⟩
  exact Option.isSome_iff_exists.mp this

/-- The shared none-characterisation of the two per-event extractors. -/
theorem cliMapEvent_eq_none_iff (ev : RawMarketEvent) :
    cliMapEvent ev = none ↔
      (∀ b ∈ ev.bookmakers, hasH2hMarket b = false) ∨
      (∃ bk m, findH2hBookmaker ev = some bk ∧ findH2h bk = some m ∧
        m.outcomes.length < 2) := by
  cases hfind : findH2hBookmaker ev with
  | none =>
      have hval : cliMapEvent ev = none := by simp [cliMapEvent, hfind]
      have hall : ∀ b ∈ ev.bookmakers, hasH2hMarket b = false := by
        unfold findH2hBookmaker at hfind
        intro b hb
        simpa using List.find?_eq_none.mp hfind b hb
      exact iff_of_true hval (Or.inl hall)
  | some bk =>
      have hbk : hasH2hMarket bk = true := List.find?_some hfind
      have hmem : bk ∈ ev.bookmakers := List.mem_of_find?_eq_some hfind
      obtain ⟨m, hm⟩ := findH2h_isSome_of_hasH2h bk hbk
      by_cases hlen : m.outcomes.length < 2
      · have hval : cliMapEvent ev = none := by
          simp [cliMapEvent, hfind, hm, hlen]
        exact iff_of_true hval (Or.inr ⟨bk, m, rfl, hm, hlen⟩)
      · have hval : cliMapEvent ev ≠ none := by
          simp [cliMapEvent, hfind, hm, hlen]
        refine iff_of_false hval ?_
        intro h
        rcases h with hall | ⟨bk', m', hbk', hm', hlen'⟩
        · exact absurd hbk (by simp [hall bk hmem])
        · cases hbk'
          rw [hm] at hm'
          cases hm'
          exact absurd hlen' hlen

/-- The bulk extractor drops exactly the events the CLI extractor
drops. -/
theorem oddsAllRow_none_iff_cli_none (region sportKey : String) (ev : RawMarketEvent) :
    oddsAllRowOfEvent region sportKey ev = none ↔ cliMapEvent ev = none := by
  cases hfind : findH2hBookmaker ev with
  | none => simp [oddsAllRowOfEvent, cliMapEvent, hfind]
  | some bk =>
      cases hm : findH2h bk with
      | none => simp [oddsAllRowOfEvent, cliMapEvent, hfind, hm]
      | some h2h =>
          by_cases hlen : h2h.outcomes.length < 2
          · simp [oddsAllRowOfEvent, cliMapEvent, hfind, hm, hlen]
          · simp [oddsAllRowOfEvent, cliMapEvent, hfind, hm, hlen]

/-- C2: the extractor selects the first bookmaker (in payload order)
whose markets include an h2h market, independently of any prices; an
event maps to `none` exactly when no bookmaker offers an h2h market or
the selected h2h market lists fewer than two outcomes (in both the CLI
and bulk variants); and dropped events contribute no row to the output
of either pipeline. -/
theorem extract_first_h2h_spec :
    (∀ (ev : RawMarketEvent) (pre : List Bookmaker) (bk : Bookmaker) (post : List Bookmaker),
      ev.bookmakers = pre ++ bk :: post →
      (∀ b ∈ pre, hasH2hMarket b = false) → hasH2hMarket bk = true →
      findH2hBookmaker ev = some bk)
    ∧ (∀ ev : RawMarketEvent, cliMapEvent ev = none ↔
        (∀ b ∈ ev.bookmakers, hasH2hMarket b = false) ∨
        (∃ bk m, findH2hBookmaker ev = some bk ∧ findH2h bk = some m ∧
          m.outcomes.length < 2))
    ∧ (∀ region sportKey ev,
        oddsAllRowOfEvent region sportKey ev = none ↔ cliMapEvent ev = none)
    ∧ (∀ region sportKey (l1 l2 : List RawMarketEvent) ev, cliMapEvent ev = none →
        (l1 ++ ev :: l2).filterMap (oddsAllRowOfEvent region sportKey)
          = (l1 ++ l2).filterMap (oddsAllRowOfEvent region sportKey)
        ∧ (l1 ++ ev :: l2).filterMap cliMapEvent = (l1 ++ l2).filterMap cliMapEvent) := by
  refine ⟨?_, cliMapEvent_eq_none_iff, oddsAllRow_none_iff_cli_none, ?_⟩
  · intro ev pre bk post hsplit hpre hbk
    unfold findH2hBookmaker
    rw [hsplit]
    exact find?_append_first hasH2hMarket pre bk post hpre hbk
  · intro region sportKey l1 l2 ev hnone
    have hall : oddsAllRowOfEvent region sportKey ev = none :=
      (oddsAllRow_none_iff_cli_none region sportKey ev).mpr hnone
    constructor
    · simp [List.filterMap_append, List.filterMap_cons, hall]
    · simp [List.filterMap_append, List.filterMap_cons, hnone]






/-- Witness for C2: on `evC2` the second bookmaker is selected (the
first offers no h2h market), and an event with an empty bookmaker list
maps to `none` and contributes no row. -/
theorem extract_first_h2h_spec_witness :
    findH2hBookmaker evC2 = some bkWithH2h
    ∧ ([evC2kept] ++ evC2dropped :: []).filterMap cliMapEvent
        = ([evC2kept] ++ []).filterMap cliMapEvent := by
  constructor
  · exact extract_first_h2h_spec.1 evC2 [bkNoH2h] bkWithH2h [] rfl
      (by intro b hb; simp at hb; rw [hb]; rfl) rfl
  · exact (extract_first_h2h_spec.2.2.2 "eu" "k" [evC2kept] [] evC2dropped rfl).2

/-! ## Failure-policy lemmas -/


theorem oddsAllRun_eq_foldl (region : String)
    (fetches : List (String × FetchResult (List RawMarketEvent))) :
    oddsAllRun region fetches = fetches.foldl (oddsAllStep region) (.ok []) := rfl

theorem oddsAllStep_httpError (region : String) (acc : Except Unit (List FlatRow))
    (k : String) (s : Nat) : oddsAllStep region acc (k, .httpError s) = acc := by
  cases acc with
  | error e => rfl
  | ok all =>
      show Except.bind (Except.ok all) (fun all => Except.ok (all ++ [])) = Except.ok all
      simp only [List.append_nil]
      rfl

theorem oddsAllStep_transport (region : String) (acc : Except Unit (List FlatRow))
    (k : String) : oddsAllStep region acc (k, .transportError) = .error () := by
  cases acc with
  | error e => rfl
  | ok all => rfl

theorem foldl_oddsAllStep_error (region : String)
    (l : List (String × FetchResult (List RawMarketEvent))) :
    l.foldl (oddsAllStep region) (.error ()) = .error () := by
  induction l with
  | nil => rfl
  | cons x xs ih => simpa [oddsAllStep, Except.bind] using ih

/-- C3: a non-success HTTP response on a market fetch yields `[]` in the
bulk entry point and the run continues unchanged; yields the `-1`
sentinel row (distinct from the `0` of a successful empty fetch) in the
history scan; and fails the whole invocation in the strict
single-competition CLI fetch. -/
theorem http_error_policy :
    (∀ region sportKey status,
      oddsAllFetch region sportKey (.httpError status) = .ok [])
    ∧ (∀ region fs1 fs2 sportKey status,
        oddsAllRun region (fs1 ++ (sportKey, .httpError status) :: fs2)
          = oddsAllRun region (fs1 ++ fs2))
    ∧ (∀ status, countEvents (.httpError status) = -1)
    ∧ countEvents (.success (.arr [])) = 0
    ∧ (∀ ts pairs (p : ScanFetch), p ∈ pairs → ∀ status, p.result = .httpError status →
        ({ ts := ts, key := p.key, title := p.title, region := p.region,
           count := -1 } : ScanRow) ∈ scanRun ts pairs)
    ∧ (∀ status, cliFetch (.httpError status)
        = (.error ("Odds fetch failed: " ++ toString status) : Except String (List CliEvent))) := by
  refine ⟨fun _ _ _ => rfl, ?_, fun _ => rfl, rfl, ?_, fun _ => rfl⟩
  · intro region fs1 fs2 sportKey status
    rw [oddsAllRun_eq_foldl, oddsAllRun_eq_foldl, List.foldl_append, List.foldl_append,
      List.foldl_cons, oddsAllStep_httpError]
  · intro ts pairs p hp status hres
    refine List.mem_map.mpr ⟨p, hp, ?_⟩
    rw [hres]
    rfl

/-- Witness for C3: the run over a success and a 500 response equals the
run without the failing pair, the sentinel row is recorded, and the CLI
fetch errors. -/
theorem http_error_policy_witness :
    oddsAllRun "eu" ([("a", .success [])] ++ ("b", .httpError 500) :: [])
      = oddsAllRun "eu" ([("a", .success [])] ++ [])
    ∧ ({ ts := "t", key := "k", title := "T", region := "eu", count := -1 } : ScanRow)
        ∈ scanRun "t" [⟨"k", "T", "eu", .httpError 500⟩]
    ∧ cliFetch (.httpError 500) = (.error "Odds fetch failed: 500" : Except String (List CliEvent)) := by
  refine ⟨http_error_policy.2.1 "eu" [("a", .success [])] [] "b" 500, ?_, ?_⟩
  · exact http_error_policy.2.2.2.2.1 "t" [⟨"k", "T", "eu", .httpError 500⟩]
      ⟨"k", "T", "eu", .httpError 500⟩ (List.mem_singleton.mpr rfl) 500 rfl
  · exact http_error_policy.2.2.2.2.2 500

/-- C9 counterexample: a transport failure on a bulk market fetch is not
treated as zero results — it propagates out of `fetchOddsForKey`
(`odds_all.js` has no `try`/`catch` there) and aborts the whole run via
the top-level handler. -/
theorem transport_bulk_counterexample :
    oddsAllFetch "eu" "k" .transportError = .error ()
    ∧ oddsAllRun "eu" [("k", .transportError)] = .error ()
    ∧ oddsAllRun "eu" [("k", .transportError)] ≠ .ok [] := by
  refine ⟨rfl, rfl, ?_⟩
  intro h
  exact Except.noConfusion h

/-- C9 amended: a market-fetch transport failure is handled leniently
only in the history scan, where it is caught and recorded as the `-1`
sentinel; in the bulk snapshot it propagates and aborts the whole run. -/
theorem transport_failure_policy :
    countEvents .transportError = -1
    ∧ (∀ ts pairs (p : ScanFetch), p ∈ pairs → p.result = .transportError →
        ({ ts := ts, key := p.key, title := p.title, region := p.region,
           count := -1 } : ScanRow) ∈ scanRun ts pairs)
    ∧ (∀ region sportKey, oddsAllFetch region sportKey .transportError = .error ())
    ∧ (∀ region fs1 fs2 sportKey,
        oddsAllRun region (fs1 ++ (sportKey, .transportError) :: fs2) = .error ()) := by
  refine ⟨rfl, ?_, fun _ _ => rfl, ?_⟩
  · intro ts pairs p hp hres
    refine List.mem_map.mpr ⟨p, hp, ?_⟩
    rw [hres]
    rfl
  · intro region fs1 fs2 sportKey
    rw [oddsAllRun_eq_foldl, List.foldl_append, List.foldl_cons,
      oddsAllStep_transport, foldl_oddsAllStep_error]

/-- Witness for C9 (amended): a concrete transport failure yields the
sentinel row in the scan and an aborted bulk run. -/
theorem transport_failure_policy_witness :
    ({ ts := "t", key := "k", title := "T", region := "eu", count := -1 } : ScanRow)
      ∈ scanRun "t" [⟨"k", "T", "eu", .transportError⟩]
    ∧ oddsAllRun "eu" ([("a", .success [])] ++ ("b", .transportError) :: []) = .error () := by
  refine ⟨?_, transport_failure_policy.2.2.2 "eu" [("a", .success [])] [] "b"⟩
  exact transport_failure_policy.2.1 "t" [⟨"k", "T", "eu", .transportError⟩]
    ⟨"k", "T", "eu", .transportError⟩ (List.mem_singleton.mpr rfl) rfl

/-! ## Persisted probability fields -/

theorem dot_mem_fixed4String (q : ℚ) : '.' ∈ (fixed4String q).data := by
  unfold fixed4String
  rw [String.data_append, String.data_append]
  exact List.mem_append_left _ (List.mem_append_right _ (by decide))

theorem dot_mem_toFixed4_fin (q : ℚ) : '.' ∈ (toFixed4 (.fin q)).data := by
  show '.' ∈ ((if q < 0 then "-" ++ fixed4String (-q) else fixed4String q)).data
  by_cases h : q < 0
  · rw [if_pos h, String.data_append]
    exact List.mem_append_right _ (dot_mem_fixed4String (-q))
  · rw [if_neg h]
    exact dot_mem_fixed4String q

theorem toFixed4_fin_ne (q : ℚ) (s : String) (hs : '.' ∉ s.data) :
    toFixed4 (.fin q) ≠ s := by
  intro h
  exact hs (h ▸ dot_mem_toFixed4_fin q)


/-- C4 counterexample: in the CLI entry point (`odds.js` line 99) the
probability field is formatted with `toFixed` without a finiteness
guard, so the first computed probability of `evC4` is non-finite yet the
persisted CSV field is the string `NaN`, not blank. -/
theorem persisted_nan_counterexample :
    (cliMapEvent evC4).map (fun e => (cliCsvRowOfEvent "eu" e).prob1) = some "NaN"
    ∧ (cliMapEvent evC4).map (fun e => (e.probs_normalized.get? 0).map JSNum.isFinite)
        = some (some false)
    ∧ "NaN" ≠ "" := by
  refine ⟨by decide, by decide, by decide⟩

/-- The probability fields of a bulk row are the guarded renderings of
the normalized probabilities of the selected h2h market. -/
theorem oddsAllRow_prob_fields (region sportKey : String) (ev : RawMarketEvent)
    (row : FlatRow) (h : oddsAllRowOfEvent region sportKey ev = some row) :
    ∃ bk m, findH2hBookmaker ev = some bk ∧ findH2h bk = some m ∧
      row.prob1
        = guardedProbField (normalizeDecimalOddsToProbs (m.outcomes.map (fun oc => oc.price))) 0
      ∧ row.prob2
        = guardedProbField (normalizeDecimalOddsToProbs (m.outcomes.map (fun oc => oc.price))) 1 := by
  cases hfind : findH2hBookmaker ev with
  | none => rw [oddsAllRowOfEvent, hfind] at h; exact Option.noConfusion h
  | some bk =>
    cases hm : findH2h bk with
    | none =>
        simp only [oddsAllRowOfEvent, hfind, hm] at h
        exact Option.noConfusion h
    | some h2h =>
      by_cases hlen : h2h.outcomes.length < 2
      · simp only [oddsAllRowOfEvent, hfind, hm, List.length_map, if_pos hlen] at h
        exact Option.noConfusion h
      · simp only [oddsAllRowOfEvent, hfind, hm, List.length_map, if_neg hlen,
          Option.some.injEq] at h
        subst h
        exact ⟨bk, h2h, rfl, hm, rfl, rfl⟩

/-- C4 amended: the bulk-snapshot entry point persists a blank field for
any non-finite computed probability and never writes the strings
`NaN`/`Infinity`; the single-competition CLI entry point lacks the
finiteness guard and can persist `NaN` (see the counterexample). -/
theorem bulk_nonfinite_blank :
    (∀ probs i p, probs.get? i = some p → p.isFinite = false → guardedProbField probs i = "")
    ∧ (∀ probs i, guardedProbField probs i ≠ "NaN"
        ∧ guardedProbField probs i ≠ "Infinity" ∧ guardedProbField probs i ≠ "-Infinity")
    ∧ (∀ region sportKey ev row, oddsAllRowOfEvent region sportKey ev = some row →
        ∃ bk m, findH2hBookmaker ev = some bk ∧ findH2h bk = some m ∧
          row.prob1
            = guardedProbField (normalizeDecimalOddsToProbs (m.outcomes.map (fun oc => oc.price))) 0
          ∧ row.prob2
            = guardedProbField (normalizeDecimalOddsToProbs (m.outcomes.map (fun oc => oc.price))) 1) := by
  refine ⟨?_, ?_, oddsAllRow_prob_fields⟩
  · intro probs i p hp hfin
    unfold guardedProbField
    simp only [hp]
    rw [hfin]
    simp
  · intro probs i
    unfold guardedProbField
    cases hp : probs.get? i with
    | none => refine ⟨by decide, by decide, by decide⟩
    | some p =>
        cases p with
        | nan => refine ⟨by decide, by decide, by decide⟩
        | inf => refine ⟨by decide, by decide, by decide⟩
        | ninf => refine ⟨by decide, by decide, by decide⟩
        | fin q =>
            exact ⟨toFixed4_fin_ne q "NaN" (by decide),
              toFixed4_fin_ne q "Infinity" (by decide),
              toFixed4_fin_ne q "-Infinity" (by decide)⟩

/-- Witness for C4 (amended): a `NaN` probability renders blank in the
bulk guard, and a finite one never renders as `Infinity`. -/
theorem bulk_nonfinite_blank_witness :
    guardedProbField [JSNum.nan] 0 = ""
    ∧ guardedProbField [JSNum.fin (1/2)] 0 ≠ "Infinity" := by
  refine ⟨bulk_nonfinite_blank.1 [JSNum.nan] 0 JSNum.nan rfl rfl, ?_⟩
  exact (bulk_nonfinite_blank.2.1 [JSNum.fin (1/2)] 0).2.1

/-! ## Events with more than two outcomes -/

/-- C10: for an event whose selected h2h market lists at least three
positively priced outcomes, both the bulk flat row and the CLI CSV row
persist only the first two names, odds, and probabilities, while each
probability is normalized over all listed outcomes; hence the two
persisted probabilities sum to strictly less than 1. -/
theorem multi_outcome_rows (region sportKey : String) (ev : RawMarketEvent)
    (bk : Bookmaker) (m : Market) (q0 q1 q2 : ℚ) (qrest : List ℚ)
    (hfind : findH2hBookmaker ev = some bk) (hm : findH2h bk = some m)
    (hprices : m.outcomes.map (fun oc => oc.price) = (q0 :: q1 :: q2 :: qrest).map JSNum.fin)
    (hpos : ∀ q ∈ q0 :: q1 :: q2 :: qrest, 0 < q) :
    (∃ row, oddsAllRowOfEvent region sportKey ev = some row
      ∧ row.player1 = ((m.outcomes.map (fun oc => oc.name)).get? 0).getD ""
      ∧ row.player2 = ((m.outcomes.map (fun oc => oc.name)).get? 1).getD ""
      ∧ row.odds1 = .fin q0 ∧ row.odds2 = .fin q1
      ∧ row.prob1 = toFixed4 (.fin (1 / q0 / ((q0 :: q1 :: q2 :: qrest).map (fun r => 1 / r)).sum))
      ∧ row.prob2 = toFixed4 (.fin (1 / q1 / ((q0 :: q1 :: q2 :: qrest).map (fun r => 1 / r)).sum))
      ∧ 1 / q0 / ((q0 :: q1 :: q2 :: qrest).map (fun r => 1 / r)).sum
          + 1 / q1 / ((q0 :: q1 :: q2 :: qrest).map (fun r => 1 / r)).sum < 1)
    ∧ (∃ e, cliMapEvent ev = some e
      ∧ (cliCsvRowOfEvent region e).player1 = ((m.outcomes.map (fun oc => oc.name)).get? 0).getD ""
      ∧ (cliCsvRowOfEvent region e).player2 = ((m.outcomes.map (fun oc => oc.name)).get? 1).getD ""
      ∧ (cliCsvRowOfEvent region e).odds1 = some (.fin q0)
      ∧ (cliCsvRowOfEvent region e).odds2 = some (.fin q1)
      ∧ (cliCsvRowOfEvent region e).prob1
          = toFixed4 (.fin (1 / q0 / ((q0 :: q1 :: q2 :: qrest).map (fun r => 1 / r)).sum))
      ∧ (cliCsvRowOfEvent region e).prob2
          = toFixed4 (.fin (1 / q1 / ((q0 :: q1 :: q2 :: qrest).map (fun r => 1 / r)).sum))) := by
  have hS : 0 < ((q0 :: q1 :: q2 :: qrest).map (fun r => 1 / r)).sum :=
    sum_implied_pos _ (by simp) hpos
  have hlen : ¬ m.outcomes.length < 2 := by
    have : (m.outcomes.map (fun oc => oc.price)).length
        = ((q0 :: q1 :: q2 :: qrest).map JSNum.fin).length := by rw [hprices]
    simp only [List.length_map, List.length_cons] at this
    omega
  have hprobs : normalizeDecimalOddsToProbs (m.outcomes.map (fun oc => oc.price))
      = (q0 :: q1 :: q2 :: qrest).map
          (fun q => JSNum.fin (1 / q / ((q0 :: q1 :: q2 :: qrest).map (fun r => 1 / r)).sum)) := by
    rw [hprices]
    exact normalize_fin _ (fun q hq => ne_of_gt (hpos q hq)) (ne_of_gt hS)
  refine ⟨⟨{ event_id := ev.id, start := ev.commence_time,
             player1 := ((m.outcomes.map (fun oc => oc.name)).get? 0).getD "",
             player2 := ((m.outcomes.map (fun oc => oc.name)).get? 1).getD "",
             odds1 := ((m.outcomes.map (fun oc => oc.price)).get? 0).getD .nan,
             odds2 := ((m.outcomes.map (fun oc => oc.price)).get? 1).getD .nan,
             prob1 := guardedProbField
               (normalizeDecimalOddsToProbs (m.outcomes.map (fun oc => oc.price))) 0,
             prob2 := guardedProbField
               (normalizeDecimalOddsToProbs (m.outcomes.map (fun oc => oc.price))) 1,
             bookmaker := (jsOrStr bk.title bk.key).getD "",
             sport_key := sportKey, region := region },
           ?_, rfl, rfl, ?_, ?_, ?_, ?_, ?_⟩,
          ⟨{ id := ev.id, start := ev.commence_time,
             players := m.outcomes.map (fun oc => oc.name),
             odds_decimal := m.outcomes.map (fun oc => oc.price),
             probs_normalized := normalizeDecimalOddsToProbs (m.outcomes.map (fun oc => oc.price)),
             bookmaker := jsOrStr bk.title bk.key },
           ?_, rfl, rfl, ?_, ?_, ?_, ?_⟩⟩
  · simp only [oddsAllRowOfEvent, hfind, hm, List.length_map, if_neg hlen]
  · show ((m.outcomes.map (fun oc => oc.price)).get? 0).getD .nan = _
    rw [hprices]; rfl
  · show ((m.outcomes.map (fun oc => oc.price)).get? 1).getD .nan = _
    rw [hprices]; rfl
  · show guardedProbField (normalizeDecimalOddsToProbs (m.outcomes.map (fun oc => oc.price))) 0 = _
    rw [hprobs]; rfl
  · show guardedProbField (normalizeDecimalOddsToProbs (m.outcomes.map (fun oc => oc.price))) 1 = _
    rw [hprobs]; rfl
  · rw [div_add_div_same, div_lt_one hS]
    have h2 : 0 < 1 / q2 := one_div_pos.mpr (hpos q2 (by simp))
    have hrest : 0 ≤ (qrest.map (fun r => 1 / r)).sum := by
      apply List.sum_nonneg
      intro x hx
      obtain ⟨r, hr, rfl⟩ := List.mem_map.mp hx
      exact le_of_lt (one_div_pos.mpr (hpos r (by simp [hr])))
    simp only [List.map_cons, List.sum_cons]
    linarith
  · simp only [cliMapEvent, hfind, hm, List.length_map, if_neg hlen]
  · show (m.outcomes.map (fun oc => oc.price)).get? 0 = _
    rw [hprices]; rfl
  · show (m.outcomes.map (fun oc => oc.price)).get? 1 = _
    rw [hprices]; rfl
  · show cliProbField (normalizeDecimalOddsToProbs (m.outcomes.map (fun oc => oc.price))) 0 = _
    rw [hprobs]; rfl
  · show cliProbField (normalizeDecimalOddsToProbs (m.outcomes.map (fun oc => oc.price))) 1 = _
    rw [hprobs]; rfl


/-- Witness for C10 on a concrete three-outcome market with odds
`[2, 4, 4]`, covering both the bulk row and the CLI CSV row. -/
theorem multi_outcome_rows_witness :
    (∃ row, oddsAllRowOfEvent "eu" "k" evC10 = some row
      ∧ row.player1 = "A"
      ∧ row.player2 = "B"
      ∧ row.odds1 = .fin 2 ∧ row.odds2 = .fin 4
      ∧ row.prob1 = toFixed4 (.fin (1 / 2 / (([2, 4, 4] : List ℚ).map (fun r => 1 / r)).sum))
      ∧ row.prob2 = toFixed4 (.fin (1 / 4 / (([2, 4, 4] : List ℚ).map (fun r => 1 / r)).sum))
      ∧ 1 / 2 / (([2, 4, 4] : List ℚ).map (fun r => 1 / r)).sum
          + 1 / 4 / (([2, 4, 4] : List ℚ).map (fun r => 1 / r)).sum < 1)
    ∧ (∃ e, cliMapEvent evC10 = some e
      ∧ (cliCsvRowOfEvent "eu" e).player1 = "A"
      ∧ (cliCsvRowOfEvent "eu" e).player2 = "B"
      ∧ (cliCsvRowOfEvent "eu" e).odds1 = some (.fin 2)
      ∧ (cliCsvRowOfEvent "eu" e).odds2 = some (.fin 4)
      ∧ (cliCsvRowOfEvent "eu" e).prob1
          = toFixed4 (.fin (1 / 2 / (([2, 4, 4] : List ℚ).map (fun r => 1 / r)).sum))
      ∧ (cliCsvRowOfEvent "eu" e).prob2
          = toFixed4 (.fin (1 / 4 / (([2, 4, 4] : List ℚ).map (fun r => 1 / r)).sum))) :=
  multi_outcome_rows "eu" "k" evC10
    ⟨some "B", some "b", [⟨"h2h", [⟨"A", .fin 2⟩, ⟨"B", .fin 4⟩, ⟨"C", .fin 4⟩]⟩]⟩
    ⟨"h2h", [⟨"A", .fin 2⟩, ⟨"B", .fin 4⟩, ⟨"C", .fin 4⟩]⟩
    2 4 4 [] (by decide) (by decide) (by decide) (by decide)

/-! ## The archive stamp: format and lexicographic sorting -/

theorem data_padDigits_succ (w n : Nat) :
    (padDigits (w + 1) n).data = digitChar10 (n / 10 ^ w % 10) :: (padDigits w n).data := by
  show (String.singleton _ ++ padDigits w n).data = _
  rw [String.data_append]
  rfl

theorem padDigits_data_length (w n : Nat) : (padDigits w n).data.length = w := by
  induction w with
  | zero => rfl
  | succ w ih => rw [data_padDigits_succ, List.length_cons, ih]

theorem digitChar10_keep (d : Nat) (hd : d < 10) :
    (!(digitChar10 d == '-' || digitChar10 d == ':')) = true := by
  interval_cases d <;> decide

theorem filter_padDigits (w n : Nat) :
    (padDigits w n).data.filter (fun c => !(c == '-' || c == ':')) = (padDigits w n).data := by
  induction w with
  | zero => rfl
  | succ w ih =>
      rw [data_padDigits_succ, List.filter_cons,
        digitChar10_keep _ (Nat.mod_lt _ (by norm_num)), if_pos rfl, ih]

theorem take_len_add {α : Type} : ∀ (l1 l2 : List α) (m : Nat),
    (l1 ++ l2).take (l1.length + m) = l1 ++ l2.take m := by
  intro l1
  induction l1 with
  | nil => intro l2 m; simp
  | cons a l ih =>
      intro l2 m
      have hc : l.length + 1 + m = (l.length + m) + 1 := by omega
      simp only [List.cons_append, List.length_cons, hc, List.take_succ_cons, ih]

/-- Taking 15 characters of six fixed-width segments around a `T`
exhausts exactly the segments before the `rest`. -/
theorem take_15_shape (A B C E F G rest : List Char)
    (hA : A.length = 4) (hB : B.length = 2) (hC : C.length = 2)
    (hE : E.length = 2) (hF : F.length = 2) (hG : G.length = 2) :
    (A ++ (B ++ (C ++ (['T'] ++ (E ++ (F ++ (G ++ rest))))))).take 15
      = A ++ (B ++ (C ++ (['T'] ++ (E ++ (F ++ G))))) := by
  rw [show (15 : Nat) = A.length + 11 by omega, take_len_add]
  rw [show (11 : Nat) = B.length + 9 by omega, take_len_add]
  rw [show (9 : Nat) = C.length + 7 by omega, take_len_add]
  rw [show (7 : Nat) = (['T'] : List Char).length + 6 from rfl, take_len_add]
  rw [show (6 : Nat) = E.length + 4 by omega, take_len_add]
  rw [show (4 : Nat) = F.length + 2 by omega, take_len_add]
  rw [show (2 : Nat) = G.length + 0 by omega, take_len_add]
  simp

set_option maxHeartbeats 1600000 in
/-- The archive stamp of an ISO timestamp keeps the first 15 characters
of the separator-stripped string: `YYYYMMDD`, the `T`, and `HHmmss`. -/
theorem stamp_isoString (t : DateTime) :
    stamp (isoString t)
      = padDigits 4 t.year ++ padDigits 2 t.month ++ padDigits 2 t.day ++ "T"
        ++ padDigits 2 t.hour ++ padDigits 2 t.minute ++ padDigits 2 t.second := by
  apply String.ext
  show ((isoString t).data.filter (fun c => !(c == '-' || c == ':'))).take 15 = _
  have hdata : (isoString t).data
      = (padDigits 4 t.year).data ++ ['-'] ++ (padDigits 2 t.month).data ++ ['-']
        ++ (padDigits 2 t.day).data ++ ['T'] ++ (padDigits 2 t.hour).data ++ [':']
        ++ (padDigits 2 t.minute).data ++ [':'] ++ (padDigits 2 t.second).data
        ++ ['.'] ++ (padDigits 3 t.ms).data ++ ['Z'] := by
    show (padDigits 4 t.year ++ "-" ++ padDigits 2 t.month ++ "-" ++ padDigits 2 t.day ++ "T"
        ++ padDigits 2 t.hour ++ ":" ++ padDigits 2 t.minute ++ ":" ++ padDigits 2 t.second
        ++ "." ++ padDigits 3 t.ms ++ "Z").data = _
    simp only [String.data_append]
  rw [hdata]
  simp only [List.filter_append, filter_padDigits]
  have hdash : List.filter (fun c => !(c == '-' || c == ':')) ['-'] = [] := rfl
  have hcolon : List.filter (fun c => !(c == '-' || c == ':')) [':'] = [] := rfl
  have hT : List.filter (fun c => !(c == '-' || c == ':')) ['T'] = ['T'] := rfl
  have hdot : List.filter (fun c => !(c == '-' || c == ':')) ['.'] = ['.'] := rfl
  have hZ : List.filter (fun c => !(c == '-' || c == ':')) ['Z'] = ['Z'] := rfl
  rw [hdash, hcolon, hT, hdot, hZ]
  have hTd : ("T" : String).data = ['T'] := rfl
  simp only [List.append_nil, List.append_assoc, String.data_append, hTd]
  exact take_15_shape _ _ _ _ _ _ _ (padDigits_data_length 4 _) (padDigits_data_length 2 _)
    (padDigits_data_length 2 _) (padDigits_data_length 2 _) (padDigits_data_length 2 _)
    (padDigits_data_length 2 _)

theorem lex_append_same {l r1 r2 : List Char} (h : List.Lex (· < ·) r1 r2) :
    List.Lex (· < ·) (l ++ r1) (l ++ r2) := by
  induction l with
  | nil => exact h
  | cons c cs ih => exact List.Lex.cons ih

theorem lex_append_of_lt {l1 l2 : List Char} (h : List.Lex (· < ·) l1 l2) :
    l1.length = l2.length → ∀ r1 r2 : List Char, List.Lex (· < ·) (l1 ++ r1) (l2 ++ r2) := by
  induction h with
  | nil => intro hlen; simp at hlen
  | @rel a l1 b l2 hab => intro hlen r1 r2; exact List.Lex.rel hab
  | @cons a l1 l2 h ih =>
      intro hlen r1 r2
      exact List.Lex.cons (ih (by simpa using hlen) r1 r2)

theorem padDigits_mod (w : Nat) : ∀ n : Nat, padDigits w n = padDigits w (n % 10 ^ w) := by
  induction w with
  | zero => intro n; rfl
  | succ w ih =>
      intro n
      apply String.ext
      rw [data_padDigits_succ, data_padDigits_succ]
      have h1 : n / 10 ^ w % 10 = n % 10 ^ (w + 1) / 10 ^ w % 10 := by
        rw [pow_succ, Nat.mod_mul_right_div_self]
        omega
      have h2 : padDigits w n = padDigits w (n % 10 ^ (w + 1)) := by
        rw [ih n, ih (n % 10 ^ (w + 1))]
        rw [Nat.mod_mod_of_dvd n (pow_dvd_pow 10 (Nat.le_succ w))]
      rw [h1, h2]

theorem digitChar10_lt (x y : Nat) (hy : y < 10) (hxy : x < y) :
    digitChar10 x < digitChar10 y := by
  interval_cases y <;> interval_cases x <;> decide

theorem padDigits_lex (w : Nat) : ∀ a b : Nat, a < 10 ^ w → b < 10 ^ w → a < b →
    List.Lex (· < ·) (padDigits w a).data (padDigits w b).data := by
  induction w with
  | zero => intro a b ha hb hab; omega
  | succ w ih =>
      intro a b ha hb hab
      rw [data_padDigits_succ, data_padDigits_succ]
      have hpow : (0 : Nat) < 10 ^ w := Nat.pos_pow_of_pos w (by norm_num)
      have hda : a / 10 ^ w < 10 := Nat.div_lt_of_lt_mul (by rw [← pow_succ]; exact ha)
      have hdb : b / 10 ^ w < 10 := Nat.div_lt_of_lt_mul (by rw [← pow_succ]; exact hb)
      rcases Nat.lt_trichotomy (a / 10 ^ w) (b / 10 ^ w) with hlt | heq | hgt
      · refine List.Lex.rel ?_
        rw [Nat.mod_eq_of_lt hda, Nat.mod_eq_of_lt hdb]
        exact digitChar10_lt _ _ hdb hlt
      · rw [heq]
        refine List.Lex.cons ?_
        have e1 : 10 ^ w * (a / 10 ^ w) + a % 10 ^ w = a := Nat.div_add_mod a (10 ^ w)
        have e2 : 10 ^ w * (b / 10 ^ w) + b % 10 ^ w = b := Nat.div_add_mod b (10 ^ w)
        rw [heq] at e1
        have hres : a % 10 ^ w < b % 10 ^ w := by omega
        rw [padDigits_mod w a, padDigits_mod w b]
        exact ih _ _ (Nat.mod_lt _ hpow) (Nat.mod_lt _ hpow) hres
      · have : a / 10 ^ w ≤ b / 10 ^ w := Nat.div_le_div_right (le_of_lt hab)
        omega

/-- Chronologically ordered timestamps give lexicographically ordered
stamps. -/
theorem stamp_lt_of_chronoLt (t1 t2 : DateTime) (h1 : t1.fitsWidths) (h2 : t2.fitsWidths)
    (hlt : t1.chronoLt t2) : stamp (isoString t1) < stamp (isoString t2) := by
  obtain ⟨hy1, hmo1, hd1, hh1, hmi1, hs1, -⟩ := h1
  obtain ⟨hy2, hmo2, hd2, hh2, hmi2, hs2, -⟩ := h2
  rw [stamp_isoString, stamp_isoString, String.lt_iff_toList_lt]
  show List.Lex (· < ·)
    ((padDigits 4 t1.year).data ++ ((padDigits 2 t1.month).data ++ ((padDigits 2 t1.day).data
      ++ ("T".data ++ ((padDigits 2 t1.hour).data ++ ((padDigits 2 t1.minute).data
      ++ (padDigits 2 t1.second).data))))))
    ((padDigits 4 t2.year).data ++ ((padDigits 2 t2.month).data ++ ((padDigits 2 t2.day).data
      ++ ("T".data ++ ((padDigits 2 t2.hour).data ++ ((padDigits 2 t2.minute).data
      ++ (padDigits 2 t2.second).data))))))
  have w4 : (10000 : Nat) = 10 ^ 4 := by norm_num
  have w2 : (100 : Nat) = 10 ^ 2 := by norm_num
  rcases hlt with hy | ⟨hy, hmo | ⟨hmo, hd | ⟨hd, hh | ⟨hh, hmi | ⟨hmi, hs⟩⟩⟩⟩⟩
  · exact lex_append_of_lt
      (padDigits_lex 4 _ _ (w4 ▸ hy1) (w4 ▸ hy2) hy)
      (by rw [padDigits_data_length, padDigits_data_length]) _ _
  · rw [hy]
    apply lex_append_same
    exact lex_append_of_lt (padDigits_lex 2 _ _ (w2 ▸ hmo1) (w2 ▸ hmo2) hmo)
      (by rw [padDigits_data_length, padDigits_data_length]) _ _
  · rw [hy, hmo]
    apply lex_append_same
    apply lex_append_same
    exact lex_append_of_lt (padDigits_lex 2 _ _ (w2 ▸ hd1) (w2 ▸ hd2) hd)
      (by rw [padDigits_data_length, padDigits_data_length]) _ _
  · rw [hy, hmo, hd]
    apply lex_append_same
    apply lex_append_same
    apply lex_append_same
    apply lex_append_same
    exact lex_append_of_lt (padDigits_lex 2 _ _ (w2 ▸ hh1) (w2 ▸ hh2) hh)
      (by rw [padDigits_data_length, padDigits_data_length]) _ _
  · rw [hy, hmo, hd, hh]
    apply lex_append_same
    apply lex_append_same
    apply lex_append_same
    apply lex_append_same
    apply lex_append_same
    exact lex_append_of_lt (padDigits_lex 2 _ _ (w2 ▸ hmi1) (w2 ▸ hmi2) hmi)
      (by rw [padDigits_data_length, padDigits_data_length]) _ _
  · rw [hy, hmo, hd, hh, hmi]
    apply lex_append_same
    apply lex_append_same
    apply lex_append_same
    apply lex_append_same
    apply lex_append_same
    apply lex_append_same
    exact padDigits_lex 2 _ _ (w2 ▸ hs1) (w2 ▸ hs2) hs


/-- C8 counterexample: the archive stamp of a concrete timestamp is the
15-character string `20261011T123456` — it retains the `T` separator and
the seconds field, so it is not a year-month-day-hour-minute truncation
with no separator characters. -/
theorem stamp_counterexample :
    stamp (isoString tC8) = "20261011T123456"
    ∧ stamp (isoString tC8) ≠ specYmdhm tC8
    ∧ 'T' ∈ (stamp (isoString tC8)).data := by
  refine ⟨by decide, by decide, by decide⟩

/-- C8 amended: the bulk archive stamp is the fixed-width 15-character
truncation `YYYYMMDD` + `T` + `HHmmss` of the ISO timestamp (it keeps
the `T` separator and the seconds, unlike the spec's
year-month-day-hour-minute description); stamps of chronologically
ordered timestamps — in particular two an hour apart — still sort
chronologically as plain strings. -/
theorem stamp_format_spec :
    (∀ t : DateTime, stamp (isoString t)
        = padDigits 4 t.year ++ padDigits 2 t.month ++ padDigits 2 t.day ++ "T"
          ++ padDigits 2 t.hour ++ padDigits 2 t.minute ++ padDigits 2 t.second)
    ∧ (∀ t1 t2 : DateTime, t1.fitsWidths → t2.fitsWidths → t1.chronoLt t2 →
        stamp (isoString t1) < stamp (isoString t2)) :=
  ⟨stamp_isoString, stamp_lt_of_chronoLt⟩

/-- Witness for C8 (amended): two timestamps one hour apart (across a
midnight rollover) produce stamps in ascending string order. -/
theorem stamp_format_spec_witness :
    stamp (isoString ⟨2026, 10, 11, 23, 30, 0, 0⟩)
      < stamp (isoString ⟨2026, 10, 12, 0, 30, 0, 0⟩) :=
  stamp_format_spec.2 ⟨2026, 10, 11, 23, 30, 0, 0⟩ ⟨2026, 10, 12, 0, 30, 0, 0⟩
    (by refine ⟨?_, ?_, ?_, ?_, ?_, ?_, ?_⟩ <;> norm_num)
    (by refine ⟨?_, ?_, ?_, ?_, ?_, ?_, ?_⟩ <;> norm_num)
    (Or.inr ⟨rfl, Or.inr ⟨rfl, Or.inl (by norm_num)⟩⟩)

/-! ## History-log lemmas -/

theorem digitsRevFuel_mem : ∀ fuel n c, c ∈ digitsRevFuel fuel n →
    ∃ d, d < 10 ∧ c = digitChar10 d := by
  intro fuel
  induction fuel with
  | zero => intro n c hc; simp [digitsRevFuel] at hc
  | succ fuel ih =>
      intro n c hc
      cases n with
      | zero => simp [digitsRevFuel] at hc
      | succ m =>
          simp only [digitsRevFuel] at hc
          rcases List.mem_cons.mp hc with h | h
          · exact ⟨(m + 1) % 10, Nat.mod_lt _ (by norm_num), h⟩
          · exact ih _ c h

theorem digitChar10_ne_nl (d : Nat) (hd : d < 10) : digitChar10 d ≠ '\n' := by
  interval_cases d <;> decide

theorem nl_not_mem_natToString (n : Nat) : '\n' ∉ (natToString n).data := by
  unfold natToString
  split
  · decide
  · intro hmem
    rw [show (String.mk (digitsRev n).reverse).data = (digitsRev n).reverse from rfl,
      List.mem_reverse] at hmem
    obtain ⟨d, hd, heq⟩ := digitsRevFuel_mem n n '\n' hmem
    exact digitChar10_ne_nl d hd heq.symm

theorem nl_not_mem_intToString (i : Int) : '\n' ∉ (intToString i).data := by
  unfold intToString
  split
  · rw [String.data_append]
    intro h
    rcases List.mem_append.mp h with h | h
    · rw [show ("-" : String).data = ['-'] from rfl] at h
      exact absurd (List.mem_singleton.mp h) (by decide)
    · exact nl_not_mem_natToString _ h
  · exact nl_not_mem_natToString _

theorem hexChar_ne_nl (k : Nat) (hk : k < 16) : hexChar k ≠ '\n' := by
  interval_cases k <;> decide

theorem nl_not_mem_jsonEscChar (c : Char) : '\n' ∉ (jsonEscChar c).data := by
  unfold jsonEscChar
  split_ifs with h1 h2 h3 h4 h5 h6 h7 h8
  · decide
  · decide
  · decide
  · decide
  · decide
  · decide
  · decide
  · intro hmem
    rw [String.data_append] at hmem
    rcases List.mem_append.mp hmem with h | h
    · revert h; decide
    · rw [show (String.mk [hexChar (c.toNat / 16), hexChar (c.toNat % 16)]).data
          = [hexChar (c.toNat / 16), hexChar (c.toNat % 16)] from rfl] at h
      rcases List.mem_cons.mp h with h | h
      · exact hexChar_ne_nl _ (by omega) h.symm
      · rcases List.mem_cons.mp h with h | h
        · exact hexChar_ne_nl _ (by omega) h.symm
        · simp at h
  · intro hmem
    rw [show (String.singleton c).data = [c] from rfl] at hmem
    have h := List.mem_singleton.mp hmem
    rw [← h] at h8
    exact h8 (by decide)

theorem string_foldl_append_data : ∀ (l : List String) (acc : String),
    (l.foldl (fun r s => r ++ s) acc).data = acc.data ++ (l.map String.data).flatten := by
  intro l
  induction l with
  | nil => intro acc; simp
  | cons s ls ih =>
      intro acc
      rw [List.foldl_cons, ih, String.data_append]
      simp

theorem data_string_join (l : List String) :
    (String.join l).data = (l.map String.data).flatten := by
  show (l.foldl (fun r s => r ++ s) "").data = _
  rw [string_foldl_append_data]
  rfl

theorem string_join_append (a b : List String) :
    String.join (a ++ b) = String.join a ++ String.join b := by
  apply String.ext
  rw [String.data_append, data_string_join, data_string_join, data_string_join,
    List.map_append, List.flatten_append]

theorem data_jsonStringifyStr (s : String) :
    (jsonStringifyStr s).data
      = '"' :: ((s.data.map jsonEscChar).map String.data).flatten ++ ['"'] := by
  unfold jsonStringifyStr
  rw [String.data_append, String.data_append, data_string_join]
  rfl

theorem quote_mem_jsonStringifyStr (s : String) : '"' ∈ (jsonStringifyStr s).data := by
  rw [data_jsonStringifyStr]
  exact List.mem_cons_self _ _

theorem nl_not_mem_jsonStringifyStr (s : String) : '\n' ∉ (jsonStringifyStr s).data := by
  rw [data_jsonStringifyStr]
  intro hm
  rcases List.mem_cons.mp hm with h | h
  · exact absurd h (by decide)
  rcases List.mem_append.mp h with h | h
  · rw [List.mem_flatten] at h
    obtain ⟨piece, hpiece, hmem⟩ := h
    obtain ⟨t, ht, rfl⟩ := List.mem_map.mp hpiece
    obtain ⟨c, hc, rfl⟩ := List.mem_map.mp ht
    exact nl_not_mem_jsonEscChar c hmem
  · exact absurd (List.mem_singleton.mp h) (by decide)


theorem scanLine_data (o : ScanRow) : (scanLine o).data = scanLineContent o ++ ['\n'] := by
  unfold scanLine scanLineContent
  simp only [String.data_append]

theorem nl_not_mem_scanLineContent (o : ScanRow) (hts : '\n' ∉ o.ts.data)
    (hr : '\n' ∉ o.region.data) : '\n' ∉ scanLineContent o := by
  unfold scanLineContent
  intro h
  simp only [List.mem_append] at h
  rcases h with ((((((((h | h) | h) | h) | h) | h) | h) | h) | h)
  · exact hts h
  · exact absurd (List.mem_singleton.mp h) (by decide)
  · exact nl_not_mem_jsonStringifyStr _ h
  · exact absurd (List.mem_singleton.mp h) (by decide)
  · exact nl_not_mem_jsonStringifyStr _ h
  · exact absurd (List.mem_singleton.mp h) (by decide)
  · exact hr h
  · exact absurd (List.mem_singleton.mp h) (by decide)
  · exact nl_not_mem_intToString _ h

theorem quote_mem_scanLineContent (o : ScanRow) : '"' ∈ scanLineContent o := by
  unfold scanLineContent
  simp only [List.mem_append]
  exact Or.inl (Or.inl (Or.inl (Or.inl (Or.inl (Or.inl (Or.inr
    (quote_mem_jsonStringifyStr o.key)))))))

theorem count_nl_scanLineContent (o : ScanRow) (hts : '\n' ∉ o.ts.data)
    (hr : '\n' ∉ o.region.data) : (scanLineContent o).count '\n' = 0 :=
  List.count_eq_zero.mpr (nl_not_mem_scanLineContent o hts hr)

theorem splitNl_append : ∀ (l rest : List Char), '\n' ∉ l →
    splitNl (l ++ '\n' :: rest) = l :: splitNl rest := by
  intro l
  induction l with
  | nil =>
      intro rest h
      rw [List.nil_append, splitNl, if_pos rfl]
  | cons c cs ih =>
      intro rest h
      have hc : c ≠ '\n' := by
        intro hh
        exact h (hh ▸ List.mem_cons_self c cs)
      rw [List.cons_append, splitNl, if_neg hc,
        ih rest (fun hm => h (List.mem_cons_of_mem c hm))]

theorem splitNl_join_lines : ∀ (lines : List (List Char)), (∀ l ∈ lines, '\n' ∉ l) →
    splitNl ((lines.map (fun l => l ++ ['\n'])).flatten) = lines ++ [[]] := by
  intro lines
  induction lines with
  | nil => intro _; rfl
  | cons l ls ih =>
      intro h
      rw [List.map_cons, List.flatten_cons, List.append_assoc,
        show ((['\n'] : List Char) ++ (ls.map (fun l => l ++ ['\n'])).flatten)
          = '\n' :: (ls.map (fun l => l ++ ['\n'])).flatten from rfl,
        splitNl_append _ _ (h l (List.mem_cons_self l ls)),
        ih (fun x hx => h x (List.mem_cons_of_mem l hx))]
      rfl

theorem count_nl_join_lines : ∀ (lines : List (List Char)), (∀ l ∈ lines, '\n' ∉ l) →
    ((lines.map (fun l => l ++ ['\n'])).flatten).count '\n' = lines.length := by
  intro lines
  induction lines with
  | nil => intro _; rfl
  | cons l ls ih =>
      intro h
      rw [List.map_cons, List.flatten_cons, List.count_append, List.count_append,
        List.count_eq_zero.mpr (h l (List.mem_cons_self l ls)),
        ih (fun x hx => h x (List.mem_cons_of_mem l hx)),
        show List.count '\n' ['\n'] = 1 from rfl, List.length_cons]
      omega

theorem scanLogRuns_go : ∀ (invs : List (List ScanRow)) (c : String),
    invs.foldl (fun st rows => some (scanLogWrite st rows)) (some c)
      = some (c ++ String.join (invs.flatten.map scanLine)) := by
  intro invs
  induction invs with
  | nil =>
      intro c
      rw [List.foldl_nil, List.flatten_nil, List.map_nil]
      rw [show String.join ([] : List String) = "" from rfl]
      rw [show c ++ "" = c from by apply String.ext; rw [String.data_append]; simp]
  | cons rows rest ih =>
      intro c
      rw [List.foldl_cons,
        show scanLogWrite (some c) rows = c ++ String.join (rows.map scanLine) from rfl, ih,
        List.flatten_cons, List.map_append, string_join_append, String.append_assoc]

theorem scanLogRuns_eq (invs : List (List ScanRow)) (h : invs ≠ []) :
    scanLogRuns invs = some (scanHeader ++ String.join (invs.flatten.map scanLine)) := by
  cases invs with
  | nil => exact absurd rfl h
  | cons rows rest =>
      unfold scanLogRuns
      rw [List.foldl_cons,
        show scanLogWrite none rows = scanHeader ++ String.join (rows.map scanLine) from rfl,
        scanLogRuns_go, List.flatten_cons, List.map_append, string_join_append,
        String.append_assoc]

theorem data_join_scanLines (rows : List ScanRow) :
    (String.join (rows.map scanLine)).data
      = ((rows.map scanLineContent).map (fun l => l ++ ['\n'])).flatten := by
  rw [data_string_join, List.map_map, List.map_map]
  congr 1

/-- C7: the history logger writes the fixed header only when the file
does not yet exist and otherwise appends without re-emitting it; after
any nonempty sequence of invocations on an initially non-existent file
the contents begin with the header, contain it as a line exactly once,
and hold `1 + n` newline-terminated lines where `n` is the total number
of appended rows; one invocation on an existing file grows the newline
count by exactly its row count. -/
theorem scan_log_header_spec :
    (∀ rows, scanLogWrite none rows = scanHeader ++ String.join (rows.map scanLine))
    ∧ (∀ c rows, scanLogWrite (some c) rows = c ++ String.join (rows.map scanLine))
    ∧ (∀ invs : List (List ScanRow), invs ≠ [] →
        (∀ rows ∈ invs, ∀ r ∈ rows, '\n' ∉ r.ts.data ∧ '\n' ∉ r.region.data) →
        ∃ s, scanLogRuns invs = some s
          ∧ (∃ rest, s = scanHeader ++ rest)
          ∧ (splitNl s.data).count ("timestamp,key,title,region,count").data = 1
          ∧ s.data.count '\n' = 1 + (invs.map List.length).sum)
    ∧ (∀ (c : String) (rows : List ScanRow),
        (∀ r ∈ rows, '\n' ∉ r.ts.data ∧ '\n' ∉ r.region.data) →
        (scanLogWrite (some c) rows).data.count '\n' = c.data.count '\n' + rows.length) := by
  have hcontents : ∀ (rows : List ScanRow),
      (∀ r ∈ rows, '\n' ∉ r.ts.data ∧ '\n' ∉ r.region.data) →
      ∀ l ∈ rows.map scanLineContent, '\n' ∉ l := by
    intro rows h l hl
    obtain ⟨r, hr, rfl⟩ := List.mem_map.mp hl
    exact nl_not_mem_scanLineContent r (h r hr).1 (h r hr).2
  refine ⟨fun _ => rfl, fun _ _ => rfl, ?_, ?_⟩
  · intro invs hne hnl
    have hmem : ∀ r ∈ invs.flatten, '\n' ∉ r.ts.data ∧ '\n' ∉ r.region.data := by
      intro r hr
      obtain ⟨rows, hrows, hrmem⟩ := List.mem_flatten.mp hr
      exact hnl rows hrows r hrmem
    have hc := hcontents invs.flatten hmem
    refine ⟨scanHeader ++ String.join (invs.flatten.map scanLine),
      scanLogRuns_eq invs hne, ⟨_, rfl⟩, ?_, ?_⟩
    · have hdata : (scanHeader ++ String.join (invs.flatten.map scanLine)).data
          = ("timestamp,key,title,region,count").data
            ++ '\n' :: ((invs.flatten.map scanLineContent).map (fun l => l ++ ['\n'])).flatten := by
        rw [String.data_append, data_join_scanLines,
          show scanHeader.data = ("timestamp,key,title,region,count").data ++ ['\n'] from rfl,
          List.append_assoc]
        rfl
      rw [hdata, splitNl_append _ _ (by decide), splitNl_join_lines _ hc,
        List.count_cons_self]
      rw [List.count_eq_zero.mpr ?_]
      · intro hin
        rcases List.mem_append.mp hin with h | h
        · obtain ⟨r, _, heq⟩ := List.mem_map.mp h
          have hq := quote_mem_scanLineContent r
          rw [heq] at hq
          exact absurd hq (by decide)
        · rw [List.mem_singleton] at h
          exact absurd h (by decide)
    · rw [String.data_append, List.count_append, data_join_scanLines,
        count_nl_join_lines _ hc, List.length_map, List.length_flatten,
        show scanHeader.data.count '\n' = 1 from by decide]
  · intro c rows h
    rw [show scanLogWrite (some c) rows = c ++ String.join (rows.map scanLine) from rfl,
      String.data_append, List.count_append, data_join_scanLines,
      count_nl_join_lines _ (hcontents rows h), List.length_map]



/-- Witness for C7: two concrete invocations produce a file with one
header line and three newline-terminated lines, and one append on an
existing file grows the newline count by its row count. -/
theorem scan_log_header_spec_witness :
    (∃ s, scanLogRuns [c7rows1, c7rows2] = some s
      ∧ (∃ rest, s = scanHeader ++ rest)
      ∧ (splitNl s.data).count ("timestamp,key,title,region,count").data = 1
      ∧ s.data.count '\n' = 1 + ([c7rows1, c7rows2].map List.length).sum)
    ∧ (scanLogWrite (some "x\n") c7rows1).data.count '\n'
        = ("x\n").data.count '\n' + c7rows1.length := by
  constructor
  · exact scan_log_header_spec.2.2.1 [c7rows1, c7rows2] (by decide) (by decide)
  · exact scan_log_header_spec.2.2.2 "x\n" c7rows1 (by decide)

/-! ## CSV serialisation against the spec's description -/

theorem quoteNeeded_iff (s : String) :
    (s.data.any (fun c => c == '"' || c == ',' || c == '\n') = true)
      ↔ ((',' ∈ s.data) ∨ ('"' ∈ s.data) ∨ ('\n' ∈ s.data)) := by
  rw [List.any_eq_true]
  constructor
  · rintro ⟨c, hc, hb⟩
    simp only [Bool.or_eq_true, beq_iff_eq] at hb
    rcases hb with (rfl | rfl) | rfl
    · exact Or.inr (Or.inl hc)
    · exact Or.inl hc
    · exact Or.inr (Or.inr hc)
  · rintro (h | h | h)
    · exact ⟨',', h, by decide⟩
    · exact ⟨'"', h, by decide⟩
    · exact ⟨'\n', h, by decide⟩

theorem escCsv_eq_spec (v : Option String) : escCsv v = specEscapeField v := by
  cases v with
  | none => rfl
  | some s =>
      show (if (s.data.any fun c => c == '"' || c == ',' || c == '\n') = true then
            "\"" ++ String.mk (dquoteChars s.data) ++ "\"" else s)
          = (if (',' ∈ s.data) ∨ ('"' ∈ s.data) ∨ ('\n' ∈ s.data) then
            "\"" ++ String.mk (s.data.flatMap (fun c => if c = '"' then ['"', '"'] else [c]))
              ++ "\"" else s)
      by_cases h : (',' ∈ s.data) ∨ ('"' ∈ s.data) ∨ ('\n' ∈ s.data)
      · rw [if_pos ((quoteNeeded_iff s).mpr h), if_pos h]
        rfl
      · rw [if_neg (fun hb => h ((quoteNeeded_iff s).mp hb)), if_neg h]

/-- C5: `toCsv` on the empty list is the empty string with no header,
and on any record list it renders exactly as the spec describes: the
first line is the first record's keys in insertion order joined by
commas, every row is rendered in that column order, and a field
containing a comma, double quote, or newline is wrapped in double quotes
with inner double quotes doubled while other fields are unquoted. -/
theorem toCsv_matches_spec :
    toCsv [] = "" ∧ ∀ rows : List Record, toCsv rows = specCsv rows := by
  refine ⟨rfl, ?_⟩
  intro rows
  cases rows with
  | nil => rfl
  | cons r0 rest =>
      unfold toCsv specCsv
      simp only [escCsv_eq_spec]

/-! ## RFC4180 reader: single-step behaviour -/

theorem csvStep_quoted_quote (st : CsvState) (h : st.mode = .quoted) :
    csvStep st '"' = { st with mode := .afterQuote } := by
  simp [csvStep, h]

theorem csvStep_quoted_other (st : CsvState) (c : Char) (h : st.mode = .quoted)
    (hc : c ≠ '"') : csvStep st c = { st with field := st.field ++ [c] } := by
  simp [csvStep, h, hc]

theorem csvStep_after_quote (st : CsvState) (h : st.mode = .afterQuote) :
    csvStep st '"' = { st with field := st.field ++ ['"'], mode := .quoted } := by
  simp [csvStep, h]

theorem csvStep_comma_flush (st : CsvState)
    (h : st.mode = .unquoted ∨ st.mode = .afterQuote) :
    csvStep st ','
      = { st with row := st.row ++ [String.mk st.field], field := [], mode := .unquoted } := by
  rcases h with h | h <;> simp [csvStep, h]

theorem csvStep_nl_flush (st : CsvState)
    (h : st.mode = .unquoted ∨ st.mode = .afterQuote) :
    csvStep st '\n'
      = { st with rows := st.rows ++ [st.row ++ [String.mk st.field]],
                  row := [], field := [], mode := .unquoted } := by
  rcases h with h | h <;> simp [csvStep, h]

theorem csvStep_unq_quote_empty (st : CsvState) (hm : st.mode = .unquoted)
    (hf : st.field = []) : csvStep st '"' = { st with mode := .quoted } := by
  simp [csvStep, hm, hf]

theorem csvStep_unq_other (st : CsvState) (c : Char) (hm : st.mode = .unquoted)
    (h1 : c ≠ '"') (h2 : c ≠ ',') (h3 : c ≠ '\n') :
    csvStep st c = { st with field := st.field ++ [c] } := by
  simp [csvStep, hm, h1, h2, h3]

/-! ## RFC4180 reader: runs over rendered fields -/

theorem string_mk_data (s : String) : String.mk s.data = s := rfl

theorem csv_run_plain : ∀ (cs : List Char) (st : CsvState), st.mode = .unquoted →
    (∀ c ∈ cs, c ≠ '"' ∧ c ≠ ',' ∧ c ≠ '\n') →
    cs.foldl csvStep st = { st with field := st.field ++ cs } := by
  intro cs
  induction cs with
  | nil => intro st hm _; cases st; simp
  | cons c cs ih =>
      intro st hm h
      have hc := h c (List.mem_cons_self c cs)
      rw [List.foldl_cons, csvStep_unq_other st c hm hc.1 hc.2.1 hc.2.2,
        ih _ (by simp [hm]) (fun x hx => h x (List.mem_cons_of_mem c hx))]
      simp

theorem csv_run_quoted : ∀ (cs : List Char) (st : CsvState), st.mode = .quoted →
    (dquoteChars cs).foldl csvStep st = { st with field := st.field ++ cs } := by
  intro cs
  induction cs with
  | nil => intro st hm; cases st; simp [dquoteChars]
  | cons c cs ih =>
      intro st hm
      obtain ⟨rows, row, field, mode⟩ := st
      simp only at hm
      subst hm
      by_cases hc : c = '"'
      · subst hc
        rw [show dquoteChars ('"' :: cs) = '"' :: '"' :: dquoteChars cs from by
            simp [dquoteChars]]
        rw [List.foldl_cons, csvStep_quoted_quote _ rfl, List.foldl_cons,
          csvStep_after_quote _ rfl, ih _ rfl]
        simp
      · rw [show dquoteChars (c :: cs) = c :: dquoteChars cs from by
            simp [dquoteChars, hc]]
        rw [List.foldl_cons, csvStep_quoted_other _ c rfl hc, ih _ rfl]
        simp

theorem csv_run_field (v : Option String) (st : CsvState) (hm : st.mode = .unquoted)
    (hf : st.field = []) :
    ∃ md, (md = CsvMode.unquoted ∨ md = CsvMode.afterQuote) ∧
      (escCsv v).data.foldl csvStep st = { st with field := (v.getD "").data, mode := md } := by
  cases v with
  | none =>
      refine ⟨.unquoted, Or.inl rfl, ?_⟩
      cases st
      simp at hm hf
      simp [escCsv, hm, hf]
  | some s =>
      obtain ⟨rows, row, field, mode⟩ := st
      simp only at hm hf
      subst hm
      subst hf
      by_cases hq : (s.data.any fun c => c == '"' || c == ',' || c == '\n') = true
      · refine ⟨.afterQuote, Or.inr rfl, ?_⟩
        have hdata : (escCsv (some s)).data = '"' :: (dquoteChars s.data ++ ['"']) := by
          show (if (s.data.any fun c => c == '"' || c == ',' || c == '\n') = true then
              "\"" ++ String.mk (dquoteChars s.data) ++ "\"" else s).data = _
          rw [if_pos hq, String.data_append, String.data_append]
          rfl
        rw [hdata, List.foldl_cons, csvStep_unq_quote_empty _ rfl rfl,
          List.foldl_append, csv_run_quoted s.data _ rfl, List.foldl_cons,
          csvStep_quoted_quote _ rfl, List.foldl_nil]
        simp
      · refine ⟨.unquoted, Or.inl rfl, ?_⟩
        have hdata : (escCsv (some s)).data = s.data := by
          show (if (s.data.any fun c => c == '"' || c == ',' || c == '\n') = true then
              "\"" ++ String.mk (dquoteChars s.data) ++ "\"" else s).data = _
          rw [if_neg hq]
        have hplain : ∀ c ∈ s.data, c ≠ '"' ∧ c ≠ ',' ∧ c ≠ '\n' := by
          intro c hcmem
          have hfalse : s.data.any (fun c => c == '"' || c == ',' || c == '\n') = false :=
            Bool.eq_false_iff.mpr hq
          have hthis := List.any_eq_false.mp hfalse c hcmem
          have hsplit : (¬c = '"' ∧ ¬c = ',') ∧ ¬c = '\n' := by simpa using hthis
          exact ⟨hsplit.1.1, hsplit.1.2, hsplit.2⟩
        rw [hdata, csv_run_plain s.data _ rfl hplain]
        simp

theorem rowData_cons₂ (v v' : Option String) (fs : List (Option String)) :
    rowData (v :: v' :: fs) = (escCsv v).data ++ ',' :: rowData (v' :: fs) := by
  simp [rowData]

theorem csvLinesData_cons₂ (l l' : List (Option String)) (ls : List (List (Option String))) :
    csvLinesData (l :: l' :: ls) = rowData l ++ '\n' :: csvLinesData (l' :: ls) := by
  simp [csvLinesData]

/-- Processing one rendered row followed by its newline flushes exactly
the row's unescaped fields. -/
theorem csv_run_rowline : ∀ (fields : List (Option String)) (st : CsvState),
    fields ≠ [] → st.mode = .unquoted → st.field = [] →
    (rowData fields ++ ['\n']).foldl csvStep st
      = { st with rows := st.rows ++ [st.row ++ fields.map (fun v => v.getD "")],
                  row := [], field := [], mode := .unquoted } := by
  intro fields
  induction fields with
  | nil => intro st h; exact absurd rfl h
  | cons v fs ih =>
      intro st _ hm hf
      cases fs with
      | nil =>
          obtain ⟨md, hmd, hrun⟩ := csv_run_field v st hm hf
          rw [show rowData [v] ++ ['\n'] = (escCsv v).data ++ ['\n'] from by simp [rowData],
            List.foldl_append, hrun, List.foldl_cons,
            csvStep_nl_flush _ (by simpa using hmd), List.foldl_nil]
          simp [string_mk_data]
      | cons v' fs' =>
          obtain ⟨md, hmd, hrun⟩ := csv_run_field v st hm hf
          rw [show rowData (v :: v' :: fs') ++ ['\n']
              = (escCsv v).data ++ (',' :: (rowData (v' :: fs') ++ ['\n'])) from by
                rw [rowData_cons₂]; simp,
            List.foldl_append, hrun, List.foldl_cons,
            csvStep_comma_flush _ (by simpa using hmd),
            ih _ (by simp) (by simp) (by simp)]
          simp [string_mk_data]

/-- Processing the final rendered row (no trailing newline) leaves its
fields pending; finalizing flushes them. -/
theorem csv_run_lastline : ∀ (fields : List (Option String)) (st : CsvState),
    fields ≠ [] → st.mode = .unquoted → st.field = [] →
    csvFinalize ((rowData fields).foldl csvStep st)
      = st.rows ++ [st.row ++ fields.map (fun v => v.getD "")] := by
  intro fields
  induction fields with
  | nil => intro st h; exact absurd rfl h
  | cons v fs ih =>
      intro st _ hm hf
      cases fs with
      | nil =>
          obtain ⟨md, hmd, hrun⟩ := csv_run_field v st hm hf
          rw [show rowData [v] = (escCsv v).data from by simp [rowData], hrun]
          simp [csvFinalize, string_mk_data]
      | cons v' fs' =>
          obtain ⟨md, hmd, hrun⟩ := csv_run_field v st hm hf
          rw [rowData_cons₂, List.foldl_append, hrun, List.foldl_cons,
            csvStep_comma_flush _ (by simpa using hmd),
            ih _ (by simp) (by simp) (by simp)]
          simp [string_mk_data]

/-- A full reader run over rendered lines recovers every line's
unescaped fields. -/
theorem csv_run_lines : ∀ (ls : List (List (Option String))) (l : List (Option String))
    (st : CsvState), (∀ x ∈ l :: ls, x ≠ []) → st.mode = .unquoted → st.field = [] →
    csvFinalize ((csvLinesData (l :: ls)).foldl csvStep st)
      = st.rows ++ (st.row ++ l.map (fun v => v.getD ""))
          :: ls.map (fun x => x.map (fun v => v.getD "")) := by
  intro ls
  induction ls with
  | nil =>
      intro l st hall hm hf
      rw [show csvLinesData [l] = rowData l from by simp [csvLinesData],
        csv_run_lastline l st (hall l (List.mem_cons_self l [])) hm hf]
      simp
  | cons l' ls' ih =>
      intro l st hall hm hf
      rw [csvLinesData_cons₂,
        show rowData l ++ '\n' :: csvLinesData (l' :: ls')
          = (rowData l ++ ['\n']) ++ csvLinesData (l' :: ls') from by simp,
        List.foldl_append,
        csv_run_rowline l st (hall l (List.mem_cons_self l _)) hm hf,
        ih l' _ (fun x hx => hall x (List.mem_cons_of_mem l hx)) (by simp) (by simp)]
      simp

/-! ## The rendered text, character by character -/

theorem intercalate_go_data : ∀ (l : List String) (acc sep : String),
    (String.intercalate.go acc sep l).data
      = acc.data ++ (l.map (fun s => sep.data ++ s.data)).flatten := by
  intro l
  induction l with
  | nil => intro acc sep; simp [String.intercalate.go]
  | cons a as ih =>
      intro acc sep
      rw [show String.intercalate.go acc sep (a :: as)
          = String.intercalate.go (acc ++ sep ++ a) sep as from rfl, ih]
      simp [String.data_append]

theorem data_intercalate_cons (sep a : String) (as : List String) :
    (String.intercalate sep (a :: as)).data
      = a.data ++ (as.map (fun s => sep.data ++ s.data)).flatten := by
  show (String.intercalate.go a sep as).data = _
  exact intercalate_go_data as a sep

theorem rowData_eq_intercalate (v : Option String) (vs : List (Option String)) :
    (String.intercalate "," ((v :: vs).map escCsv)).data = rowData (v :: vs) := by
  rw [List.map_cons, data_intercalate_cons]
  show _ = (escCsv v).data ++ (vs.map (fun v => ',' :: (escCsv v).data)).flatten
  congr 1
  rw [List.map_map]
  exact congrArg List.flatten (List.map_congr_left (fun x _ => rfl))

theorem escCsv_plain (k : String)
    (hk : ∀ ch ∈ k.data, ch ≠ '"' ∧ ch ≠ ',' ∧ ch ≠ '\n') : escCsv (some k) = k := by
  show (if (k.data.any fun c => c == '"' || c == ',' || c == '\n') = true then
      "\"" ++ String.mk (dquoteChars k.data) ++ "\"" else k) = k
  rw [if_neg]
  intro hq
  obtain ⟨c, hc, hb⟩ := List.any_eq_true.mp hq
  simp only [Bool.or_eq_true, beq_iff_eq] at hb
  have hg := hk c hc
  rcases hb with (h | h) | h
  · exact hg.1 h
  · exact hg.2.1 h
  · exact hg.2.2 h

theorem recordGet_head (p : String × Option String) (tr : Record) :
    recordGet (p :: tr) p.1 = p.2 := by
  unfold recordGet
  rw [List.find?_cons_of_pos _ (by simp)]

theorem recordGet_ne (p : String × Option String) (tr : Record) (k : String)
    (hk : p.1 ≠ k) : recordGet (p :: tr) k = recordGet tr k := by
  unfold recordGet
  rw [List.find?_cons_of_neg _ (by simp [hk])]

/-- Looking every header key up in a record with those keys, in order,
yields the record's values in order. -/
theorem recordGet_map (r : Record) (hnd : (r.map (fun p => p.1)).Nodup) :
    (r.map (fun p => p.1)).map (fun h => recordGet r h) = r.map (fun p => p.2) := by
  induction r with
  | nil => rfl
  | cons p tr ih =>
      rw [List.map_cons, List.map_cons, List.map_cons]
      have hself : p.1 ∉ tr.map (fun p => p.1) := (List.nodup_cons.mp hnd).1
      congr 1
      · exact recordGet_head p tr
      · have hcongr : ∀ k ∈ tr.map (fun p => p.1),
            recordGet (p :: tr) k = recordGet tr k := by
          intro k hk
          exact recordGet_ne p tr k (fun he => hself (he ▸ hk))
        rw [List.map_congr_left hcongr, ih (List.nodup_cons.mp hnd).2]

/-- The rendered CSV text of a nonempty record list, as characters:
the header line and the rendered rows joined by newlines. -/
theorem toCsv_data (p : String × Option String) (r0tl : Record) (rest : List Record)
    (hkeys : ∀ k ∈ (p :: r0tl).map (fun q => q.1),
      ∀ ch ∈ k.data, ch ≠ '"' ∧ ch ≠ ',' ∧ ch ≠ '\n') :
    (toCsv ((p :: r0tl) :: rest)).data
      = csvLinesData (((p :: r0tl).map (fun q => some q.1))
          :: ((p :: r0tl) :: rest).map
              (fun r => ((p :: r0tl).map (fun q => q.1)).map (fun h => recordGet r h))) := by
  have hhdr : (String.intercalate "," ((p :: r0tl).map (fun q => q.1))).data
      = rowData ((p :: r0tl).map (fun q => some q.1)) := by
    have hmap : (p :: r0tl).map (fun q => q.1)
        = ((p :: r0tl).map (fun q => some q.1)).map escCsv := by
      rw [List.map_map]
      symm
      apply List.map_congr_left
      intro q hq
      show escCsv (some q.1) = q.1
      exact escCsv_plain q.1 (hkeys q.1 (List.mem_map.mpr ⟨q, hq, rfl⟩))
    rw [hmap]
    exact rowData_eq_intercalate (some p.1) (r0tl.map (fun q => some q.1))
  have hrow : ∀ r : Record,
      (String.intercalate ","
        (((p :: r0tl).map (fun q => q.1)).map (fun h => escCsv (recordGet r h)))).data
      = rowData (((p :: r0tl).map (fun q => q.1)).map (fun h => recordGet r h)) := by
    intro r
    have hmm : ((p :: r0tl).map (fun q => q.1)).map (fun h => escCsv (recordGet r h))
        = (((p :: r0tl).map (fun q => q.1)).map (fun h => recordGet r h)).map escCsv := by
      simp only [List.map_map]
      exact List.map_congr_left (fun q _ => rfl)
    rw [hmm]
    exact rowData_eq_intercalate (recordGet r p.1) ((r0tl.map (fun q => q.1)).map (fun h => recordGet r h))
  show (String.intercalate "\n"
      (String.intercalate "," ((p :: r0tl).map (fun q => q.1))
        :: ((p :: r0tl) :: rest).map (fun r => String.intercalate ","
            (((p :: r0tl).map (fun q => q.1)).map (fun h => escCsv (recordGet r h)))))).data
    = rowData ((p :: r0tl).map (fun q => some q.1))
      ++ ((((p :: r0tl) :: rest).map
            (fun r => ((p :: r0tl).map (fun q => q.1)).map (fun h => recordGet r h))).map
          (fun l => '\n' :: rowData l)).flatten
  rw [data_intercalate_cons, hhdr]
  congr 1
  rw [List.map_map, List.map_map]
  apply congrArg List.flatten
  apply List.map_congr_left
  intro r _
  show ("\n" : String).data ++ (String.intercalate ","
      (((p :: r0tl).map (fun q => q.1)).map (fun h => escCsv (recordGet r h)))).data
    = '\n' :: rowData (((p :: r0tl).map (fun q => q.1)).map (fun h => recordGet r h))
  rw [hrow r, show ("\n" : String).data = ['\n'] from rfl]
  exact rfl

/-- C6: parsing the output of `toCsv` with a conformant RFC4180 reader
reproduces the original records exactly — for every nonempty uniform
record list with plain, duplicate-free keys and string field values that
may contain commas, double quotes, and newlines. -/
theorem csv_round_trip (p : String × Option String) (r0tl : Record) (rest : List Record)
    (hkeys : ∀ k ∈ (p :: r0tl).map (fun q => q.1),
      ∀ ch ∈ k.data, ch ≠ '"' ∧ ch ≠ ',' ∧ ch ≠ '\n')
    (hnodup : ((p :: r0tl).map (fun q => q.1)).Nodup)
    (huniform : ∀ r ∈ (p :: r0tl) :: rest,
      r.map (fun q => q.1) = (p :: r0tl).map (fun q => q.1))
    (hvals : ∀ r ∈ (p :: r0tl) :: rest, ∀ q ∈ r, q.2 ≠ none) :
    rfc4180Parse (toCsv ((p :: r0tl) :: rest))
      = ((p :: r0tl).map (fun q => q.1))
        :: ((p :: r0tl) :: rest).map (fun r => r.map (fun q => (q.2).getD ""))
    ∧ csvRecords (rfc4180Parse (toCsv ((p :: r0tl) :: rest)))
      = ((p :: r0tl) :: rest).map (fun r => r.map (fun q => (q.1, (q.2).getD ""))) := by
  have htext := toCsv_data p r0tl rest hkeys
  have hne2 : (toCsv ((p :: r0tl) :: rest)).data ≠ [] := by
    rw [htext]
    intro h
    have hlen := congrArg List.length h
    simp [csvLinesData, List.length_append] at hlen
  have hne3 : toCsv ((p :: r0tl) :: rest) ≠ "" := by
    intro h
    apply hne2
    rw [h]
  have hlinesne : ∀ x ∈ ((p :: r0tl).map (fun q => some q.1))
      :: ((p :: r0tl) :: rest).map
          (fun r => ((p :: r0tl).map (fun q => q.1)).map (fun h => recordGet r h)), x ≠ [] := by
    intro x hx
    rcases List.mem_cons.mp hx with h | h
    · subst h; simp
    · obtain ⟨r, _, rfl⟩ := List.mem_map.mp h
      simp
  have h1 : rfc4180Parse (toCsv ((p :: r0tl) :: rest))
      = ((p :: r0tl).map (fun q => q.1))
        :: ((p :: r0tl) :: rest).map (fun r => r.map (fun q => (q.2).getD "")) := by
    unfold rfc4180Parse
    rw [if_neg hne3]
    show csvFinalize (((toCsv ((p :: r0tl) :: rest)).data).foldl csvStep ⟨[], [], [], .unquoted⟩) = _
    rw [htext, csv_run_lines _ _ _ hlinesne rfl rfl]
    simp only [List.nil_append]
    congr 1
    · rw [List.map_map]
      exact List.map_congr_left (fun q _ => rfl)
    · rw [List.map_map]
      apply List.map_congr_left
      intro r hr
      show (((p :: r0tl).map (fun q => q.1)).map (fun h => recordGet r h)).map (fun v => v.getD "")
        = r.map (fun q => (q.2).getD "")
      rw [← huniform r hr, recordGet_map r (by rw [huniform r hr]; exact hnodup), List.map_map]
      exact List.map_congr_left (fun q _ => rfl)
  refine ⟨h1, ?_⟩
  rw [h1]
  show (((p :: r0tl) :: rest).map (fun r => r.map (fun q => (q.2).getD ""))).map
      (fun vs => ((p :: r0tl).map (fun q => q.1)).zip vs)
    = ((p :: r0tl) :: rest).map (fun r => r.map (fun q => (q.1, (q.2).getD "")))
  rw [List.map_map]
  apply List.map_congr_left
  intro r hr
  show ((p :: r0tl).map (fun q => q.1)).zip (r.map (fun q => (q.2).getD ""))
    = r.map (fun q => (q.1, (q.2).getD ""))
  rw [← huniform r hr]
  exact List.zip_map' (fun q => q.1) (fun q => (q.2).getD "") r


/-- Witness for C6 on concrete records whose values contain a comma, a
double quote, and a newline. -/
theorem csv_round_trip_witness :
    csvRecords (rfc4180Parse (toCsv ((("a", some "x,y") :: [("b", some "pl\"ain")]) :: [c6r1])))
      = ((("a", some "x,y") :: [("b", some "pl\"ain")]) :: [c6r1]).map
          (fun r => r.map (fun q => (q.1, (q.2).getD ""))) :=
  (csv_round_trip ("a", some "x,y") [("b", some "pl\"ain")] [c6r1]
    (by decide) (by decide) (by decide) (by decide)).2

end TennisOdds
